import Mathlib

/-!
Verification of the fimgen example-synthesis engine against its
natural-language specification.

The JavaScript sources are shallowly embedded: JS strings become `List Char`
(UTF-16 code-unit positions and `List Char` positions agree on the inputs of
all concrete theorems below, which are ASCII), JS numbers used as indices
become `Int` (clamped to `Nat` where the source clamps), and every use of
`Math.random()` becomes an explicit parameter (a rational in `[0,1)` for a raw
draw, a natural number for an already-floored index draw, a list of naturals
for a sequence of draws, or a permutation-producing function for a shuffle).
Fallible JS paths (thrown errors, potential non-termination of a retry loop)
become `Except`/`Option`.
-/

namespace Fimgen

/-- JS strings, modelled as lists of characters. -/
abbrev JStr := List Char

/-- Characters matched by the JS regex class backslash-s (ASCII part),
as used by String.prototype.trim and by the indentation regex. -/
def isJsSpace (c : Char) : Bool :=
  c = ' ' || c = '\t' || c = '\n' || c = '\r' || c = '\x0b' || c = '\x0c'

/-- JS String.prototype.trim: strip leading and trailing whitespace. -/
def jsTrim (s : JStr) : JStr :=
  ((s.dropWhile isJsSpace).reverse.dropWhile isJsSpace).reverse

/-- JS String.prototype.split with a single-character separator.
Always returns a non-empty list; an empty string yields one empty line,
mirroring "".split(c) === [""]. -/
def jsSplit (sep : Char) : JStr → List JStr
  | [] => [[]]
  | c :: cs =>
    match jsSplit sep cs with
    | [] => [[c]]
    | l :: ls => if c = sep then [] :: l :: ls else (c :: l) :: ls

/-- First index of character `c` in `l` (JS String.prototype.indexOf for a
character; returns `l.length` instead of -1, callers only use it after a
containment check, as the source does). -/
def idxOfChar (l : JStr) (c : Char) : Nat := l.findIdx (· = c)

/-- Last index of character `c` in `l`, or -1 when absent
(JS String.prototype.lastIndexOf). -/
def lastIdxOfChar (l : JStr) (c : Char) : Int :=
  match (List.range l.length).reverse.find? (fun i => l.getD i ' ' = c) with
  | some i => (i : Int)
  | none => -1

/-- Leftmost index at which `pat` occurs as a contiguous sublist of `l`,
or none (JS String.prototype.indexOf for a substring). -/
def subIdx (l pat : JStr) : Option Nat :=
  (List.range (l.length + 1)).find? (fun i => pat.isPrefixOf (l.drop i))

/-- JS String.prototype.substring: clamps both arguments into [0, length]
and swaps them when start exceeds end. -/
def jsSubstring (s : JStr) (a b : Int) : JStr :=
  let va : Int := max 0 (min a s.length)
  let vb : Int := max 0 (min b s.length)
  let lo : Int := min va vb
  let hi : Int := max va vb
  (s.take hi.toNat).drop lo.toNat

/-! ### StringRegionManager (src/src/utils/string-region-manager.js)

The JS class wraps one immutable text value; each method is embedded as a
function taking the wrapped text as its first argument. -/

namespace SRM

/-- StringRegionManager.clampPosition. -/
def clampPosition (t : JStr) (p : Int) : Nat := (max 0 (min p t.length)).toNat

/-- StringRegionManager.isValidPosition. -/
def isValidPosition (t : JStr) (p : Int) : Bool := 0 ≤ p && p ≤ (t.length : Int)

/-- StringRegionManager.extractRegion: validStart = max(0, min(start, length)),
validEnd = max(validStart, min(end, length)), then substring. -/
def extractRegion (t : JStr) (start stop : Int) : JStr :=
  let validStart : Int := max 0 (min start t.length)
  let validEnd : Int := max validStart (min stop t.length)
  (t.take validEnd.toNat).drop validStart.toNat

/-- A RegionDescriptor (string-region-manager.js): either a text slice
reference or a literal token. -/
inductive RegionDescriptor where
  | text (start stop : Int)
  | token (tok : JStr)

/-- StringRegionManager.buildWithTokens: concatenate resolved descriptors. -/
def buildWithTokens (t : JStr) (regions : List RegionDescriptor) : JStr :=
  regions.foldl
    (fun result r =>
      match r with
      | .text s e => result ++ extractRegion t s e
      | .token tok => result ++ tok)
    []

/-- Line-context record returned by StringRegionManager.getLineContext. -/
structure LineContext where
  lineNumber : Nat
  lineStart : Int
  lineEnd : Nat
  lineText : JStr
  positionInLine : Int

/-- The scanning loop of getLineContext: walk the lines accumulating offsets
(each line consumes length+1 for its newline) until position ≤ lineEnd. -/
def glcFind (position : Int) : List JStr → Nat → Nat → Option LineContext
  | [], _, _ => none
  | l :: ls, i, currentPos =>
    let lineEnd : Nat := currentPos + l.length
    if position ≤ (lineEnd : Int) then
      some ⟨i, (currentPos : Int), lineEnd, l, position - (currentPos : Int)⟩
    else
      glcFind position ls (i + 1) (lineEnd + 1)

/-- StringRegionManager.getLineContext: none when position is out of
[0, length]; otherwise the found line, with the JS beyond-last-line fallback
record when the loop finds nothing. -/
def getLineContext (t : JStr) (position : Int) : Option LineContext :=
  if position < 0 ∨ (t.length : Int) < position then none
  else
    let L := jsSplit '\n' t
    match glcFind position L 0 0 with
    | some ctx => some ctx
    | none =>
      let lastLine := L.getLast?.getD []
      let total : Nat := (L.map (fun l => l.length + 1)).sum
      some ⟨L.length - 1, (total : Int) - lastLine.length - 1, t.length,
            lastLine, (lastLine.length : Int)⟩

/-- StringRegionManager._getIndentLevel: length of the leading-whitespace
match of the line. -/
def indentLevel (line : JStr) : Nat := (line.takeWhile isJsSpace).length

/-- StringRegionManager._lineToPosition: prefix sum of line lengths plus
newlines; 0 when the line number is out of range. -/
def lineToPosition (L : List JStr) (ln : Nat) : Nat :=
  if ln < L.length then ((L.take ln).map (fun l => l.length + 1)).sum else 0

/-- Block boundaries returned by StringRegionManager.findBlockBoundaries. -/
structure BlockBounds where
  startPos : Nat
  endPos : Nat
  startLine : Nat
  endLine : Nat

/-- StringRegionManager.findBlockBoundaries: locate the line containing the
position, scan backward for the nearest earlier non-blank line with strictly
smaller indentation (the block start), scan forward for the first later
non-blank line with indentation at most the block indentation (block end is
that line if it is a lone closing brace at the block indentation, otherwise
the line before it), then convert line numbers to character offsets. -/
def findBlockBoundaries (t : JStr) (position : Int) : BlockBounds :=
  match getLineContext t position with
  | none => ⟨0, t.length, 0, 0⟩
  | some ctx =>
    let L := jsSplit '\n' t
    let currentLine := ctx.lineNumber
    let currentIndent := indentLevel (L.getD currentLine [])
    let back := (List.range currentLine).reverse.find? (fun i =>
      let line := L.getD i []
      decide (jsTrim line ≠ [] ∧ indentLevel line < currentIndent))
    let blockStart := match back with
      | some i => i
      | none => currentLine
    let blockIndent := match back with
      | some i => indentLevel (L.getD i [])
      | none => currentIndent
    let fwd := (List.range L.length).find? (fun i =>
      let line := L.getD i []
      decide (currentLine < i ∧ jsTrim line ≠ [] ∧ indentLevel line ≤ blockIndent))
    let blockEnd := match fwd with
      | some i =>
        if indentLevel (L.getD i []) = blockIndent ∧ jsTrim (L.getD i []) = ['\x7d']
        then i else i - 1
      | none => if currentLine + 1 < L.length then L.length - 1 else currentLine
    let eIdx := min (L.length - 1) blockEnd
    ⟨lineToPosition L blockStart, lineToPosition L eIdx + (L.getD eIdx []).length,
     blockStart, blockEnd⟩

end SRM

/-! ### FIM formats and value records

Modelled from the spec: the file src/types.js is not under src/ (only its
tests are); per spec section 6 and the types tests, FIMFormat is a table of
four string identifiers and FIMExample / KTOExample are plain immutable value
records that store exactly what they are given. -/

namespace FIMFormat

/-- Modelled from the spec: format identifier prefix_suffix_middle. -/
def PSM : JStr := 'p' :: 'r' :: 'e' :: 'f' :: 'i' :: 'x' :: '_' :: 's' :: 'u' ::
  'f' :: 'f' :: 'i' :: 'x' :: '_' :: 'm' :: 'i' :: 'd' :: 'd' :: 'l' :: 'e' :: []

/-- Modelled from the spec: format identifier suffix_prefix_middle. -/
def SPM : JStr := 's' :: 'u' :: 'f' :: 'f' :: 'i' :: 'x' :: '_' :: 'p' :: 'r' ::
  'e' :: 'f' :: 'i' :: 'x' :: '_' :: 'm' :: 'i' :: 'd' :: 'd' :: 'l' :: 'e' :: []

/-- Modelled from the spec: format identifier zed_format. -/
def ZED : JStr := 'z' :: 'e' :: 'd' :: '_' :: 'f' :: 'o' :: 'r' :: 'm' :: 'a' :: 't' :: []

/-- Modelled from the spec: format identifier mixed. -/
def MIXED : JStr := 'm' :: 'i' :: 'x' :: 'e' :: 'd' :: []

/-- Object.values of the FIMFormat table, in declaration order. -/
def values : List JStr := [PSM, SPM, ZED, MIXED]

end FIMFormat

/-- Builder metadata copied from an EditPair by withMetadata. -/
structure BuilderMeta where
  filepath : Option JStr
  commit : Option JStr
  language : Option JStr
  commitMessage : Option JStr
deriving DecidableEq

/-- Modelled from the spec: FIMExample (types.js absent from src/) is an
immutable value record of the built example; section 3 of the spec and the
types tests show it stores its constructor arguments unchanged. -/
structure FIMExample where
  prompt : JStr
  completion : JStr
  context : JStr
  format : JStr
  cursorPosition : Nat
  editableRegion : Nat × Nat
  metadata : Option BuilderMeta
deriving DecidableEq

/-! ### FIMExampleBuilder (src/builders/fim-example-builder.js) -/

/-- The builder's transient state. `manager` mirrors the JS field holding the
StringRegionManager (none until withCode runs; its wrapped text is stored).
`metadata` is none for the JS empty object. -/
structure FIMExampleBuilder where
  code : JStr
  cursorPosition : Option Nat
  editableRegion : Option (Nat × Nat)
  format : Option JStr
  metadata : Option BuilderMeta
  manager : Option JStr
deriving DecidableEq

namespace FIMExampleBuilder

/-- reset(): the initial state. -/
def empty : FIMExampleBuilder := ⟨[], none, none, none, none, none⟩

/-- withCode: throws when code is falsy (the empty string); otherwise stores
the code and a fresh manager. Note the JS method does not clear cursor,
region or format. -/
def withCode (b : FIMExampleBuilder) (code : JStr) : Except JStr FIMExampleBuilder :=
  if code = [] then .error ('C' :: 'o' :: 'd' :: 'e' :: [])
  else .ok { b with code := code, manager := some code }

/-- withCursor: throws when no manager (withCode not yet called); otherwise
stores the clamped position. -/
def withCursor (b : FIMExampleBuilder) (position : Int) : Except JStr FIMExampleBuilder :=
  match b.manager with
  | none => .error ('c' :: 'u' :: 'r' :: 's' :: 'o' :: 'r' :: [])
  | some t => .ok { b with cursorPosition := some (SRM.clampPosition t position) }

/-- withEditableRegion: throws when no manager; clamps start and end into
[0, length-1] with start ≤ end, and re-clamps an already-set cursor into
[start, end+1] when it falls outside. -/
def withEditableRegion (b : FIMExampleBuilder) (start stop : Int) :
    Except JStr FIMExampleBuilder :=
  match b.manager with
  | none => .error ('r' :: 'e' :: 'g' :: 'i' :: 'o' :: 'n' :: [])
  | some _ =>
    let len : Int := b.code.length
    let validStart : Int := max 0 (min start (len - 1))
    let validEnd : Int := max validStart (min stop (len - 1))
    let cursor' : Option Nat :=
      match b.cursorPosition with
      | none => none
      | some c =>
        if (c : Int) < validStart ∨ validEnd + 1 < (c : Int) then
          some (max validStart (min (c : Int) (validEnd + 1))).toNat
        else some c
    .ok { b with editableRegion := some (validStart.toNat, validEnd.toNat),
                 cursorPosition := cursor' }

/-- withFormat: throws unless the literal is one of the four recognized
format identifiers. -/
def withFormat (b : FIMExampleBuilder) (format : JStr) : Except JStr FIMExampleBuilder :=
  if format ∈ FIMFormat.values then .ok { b with format := some format }
  else .error ('f' :: 'o' :: 'r' :: 'm' :: 'a' :: 't' :: [])

/-- withMetadata: copies the EditPair fields. -/
def withMetadata (b : FIMExampleBuilder) (m : BuilderMeta) : FIMExampleBuilder :=
  { b with metadata := some m }

/-- _validate: the four required-field checks, in source order; some message
when a check fails. The format check mirrors JS truthiness (an empty-string
format is also rejected). -/
def validate (b : FIMExampleBuilder) : Option JStr :=
  if b.code = [] then some ('C' :: 'o' :: 'd' :: 'e' :: [])
  else match b.format with
    | none => some ('F' :: 'o' :: 'r' :: 'm' :: 'a' :: 't' :: [])
    | some f =>
      if f = [] then some ('F' :: 'o' :: 'r' :: 'm' :: 'a' :: 't' :: [])
      else match b.editableRegion with
        | none => some ('R' :: 'e' :: 'g' :: 'i' :: 'o' :: 'n' :: [])
        | some _ =>
          match b.cursorPosition with
          | none => some ('C' :: 'u' :: 'r' :: 's' :: 'o' :: 'r' :: [])
          | some _ => none

/-- The ZED token literals. -/
def tokRegionStart : JStr := String.toList "<|editable_region_start|>"

/-- The ZED cursor token literal. -/
def tokCursor : JStr := String.toList "<|user_cursor_is_here|>"

/-- The ZED region-end token literal. -/
def tokRegionEnd : JStr := String.toList "<|editable_region_end|>"

/-- The PSM/SPM token literals. -/
def tokFimPre : JStr := String.toList "<|fim_prefix|>"

/-- The fim_suffix token literal. -/
def tokFimSuf : JStr := String.toList "<|fim_suffix|>"

/-- The fim_middle token literal. -/
def tokFimMid : JStr := String.toList "<|fim_middle|>"

/-- The manager's wrapped text; after withCode it always equals the code.
(JS would crash on a hand-crafted state with code set but manager null;
the model totalizes that unreachable state with the empty text.) -/
def managerText (b : FIMExampleBuilder) : JStr := b.manager.getD []

/-- _buildZedFormat: prompt is the text before the region, the region-start
token, the region text up to the cursor, and the cursor token; completion is
empty when the cursor is past the inclusive end, else the slice from the
cursor to end+1 (the JS trailing || '' is the identity here since
extractRegion is total). -/
def buildZedFormat (b : FIMExampleBuilder) : FIMExample :=
  let t := managerText b
  let r := b.editableRegion.getD (0, 0)
  let start := r.1
  let stop := r.2
  let c := b.cursorPosition.getD 0
  let prompt := SRM.buildWithTokens t
    [.text 0 start, .token tokRegionStart, .text start c, .token tokCursor]
  let completion := if stop < c then [] else SRM.extractRegion t c (stop + 1)
  let context := SRM.buildWithTokens t
    [.text 0 start, .token tokRegionStart, .text start c, .token tokCursor,
     .text c (stop + 1), .token tokRegionEnd, .text (stop + 1) b.code.length]
  ⟨prompt, completion, context, FIMFormat.ZED, c, (start, stop), b.metadata⟩

/-- _buildPSMFormat: middle window of min(50, length - cursor) characters
after the cursor; prompt in prefix-suffix-middle token order. -/
def buildPSMFormat (b : FIMExampleBuilder) : FIMExample :=
  let t := managerText b
  let c := b.cursorPosition.getD 0
  let middleSize := min 50 (b.code.length - c)
  let middleEnd := c + middleSize
  let prompt := SRM.buildWithTokens t
    [.token tokFimPre, .text 0 c, .token tokFimSuf,
     .text middleEnd b.code.length, .token tokFimMid]
  let completion := SRM.extractRegion t c middleEnd
  ⟨prompt, completion, b.code, FIMFormat.PSM, c,
   b.editableRegion.getD (0, 0), b.metadata⟩

/-- _buildSPMFormat: same middle-window math, prompt in
suffix-prefix-middle token order. -/
def buildSPMFormat (b : FIMExampleBuilder) : FIMExample :=
  let t := managerText b
  let c := b.cursorPosition.getD 0
  let middleSize := min 50 (b.code.length - c)
  let middleEnd := c + middleSize
  let prompt := SRM.buildWithTokens t
    [.token tokFimSuf, .text middleEnd b.code.length, .token tokFimPre,
     .text 0 c, .token tokFimMid]
  let completion := SRM.extractRegion t c middleEnd
  ⟨prompt, completion, b.code, FIMFormat.SPM, c,
   b.editableRegion.getD (0, 0), b.metadata⟩

/-- build(): validate, then dispatch on the format string; for MIXED the JS
draws Math.random() < 0.5, modelled by the rational draw `r`. -/
def build (b : FIMExampleBuilder) (r : ℚ) : Except JStr FIMExample :=
  match validate b with
  | some msg => .error msg
  | none =>
    match b.format with
    | none => .error ('U' :: 'n' :: 's' :: 'u' :: 'p' :: [])
    | some f =>
      if f = FIMFormat.ZED then .ok (buildZedFormat b)
      else if f = FIMFormat.PSM then .ok (buildPSMFormat b)
      else if f = FIMFormat.SPM then .ok (buildSPMFormat b)
      else if f = FIMFormat.MIXED then
        .ok (if r < 1/2 then buildPSMFormat b else buildSPMFormat b)
      else .error ('U' :: 'n' :: 's' :: 'u' :: 'p' :: [])

end FIMExampleBuilder

/-! ### FIMTransformer (src/src/fim-transformer.js) -/

namespace FIMTransformer

/-- _determineEditableRegion: [0,0] for empty code; otherwise clamp the
cursor, take the block boundaries, and widen start to max(0, cursor-50) when
the block start lies after the cursor, widen end to min(length, cursor+50)
when the block end lies before the cursor. -/
def determineEditableRegion (code : JStr) (cursorPos : Int) : Nat × Nat :=
  if code = [] then (0, 0)
  else
    let safe := SRM.clampPosition code cursorPos
    let bounds := SRM.findBlockBoundaries code (safe : Int)
    let startPos := if safe < bounds.startPos then safe - 50 else bounds.startPos
    let endPos := if bounds.endPos < safe then min code.length (safe + 50) else bounds.endPos
    (startPos, endPos)

/-- _createPSMFormatExample: clamp the cursor, take the 50-character middle
window, assemble the prompt in prefix-suffix-middle order. -/
def createPSMFormatExample (code : JStr) (cursorPos : Int) (region : Nat × Nat)
    (meta : Option BuilderMeta) : FIMExample :=
  let c := SRM.clampPosition code cursorPos
  let middleSize := min 50 (code.length - c)
  let middleEnd := c + middleSize
  let prompt := SRM.buildWithTokens code
    [.token FIMExampleBuilder.tokFimPre, .text 0 c, .token FIMExampleBuilder.tokFimSuf,
     .text middleEnd code.length, .token FIMExampleBuilder.tokFimMid]
  let completion := SRM.extractRegion code c middleEnd
  ⟨prompt, completion, code, FIMFormat.PSM, c, region, meta⟩

/-- _createSPMFormatExample: same middle-window math, prompt in
suffix-prefix-middle order. -/
def createSPMFormatExample (code : JStr) (cursorPos : Int) (region : Nat × Nat)
    (meta : Option BuilderMeta) : FIMExample :=
  let c := SRM.clampPosition code cursorPos
  let middleSize := min 50 (code.length - c)
  let middleEnd := c + middleSize
  let prompt := SRM.buildWithTokens code
    [.token FIMExampleBuilder.tokFimSuf, .text middleEnd code.length,
     .token FIMExampleBuilder.tokFimPre, .text 0 c, .token FIMExampleBuilder.tokFimMid]
  let completion := SRM.extractRegion code c middleEnd
  ⟨prompt, completion, code, FIMFormat.SPM, c, region, meta⟩

end FIMTransformer

/-! ### ASTProcessor (src/ast-processor.js) -/

/-- JS Set insertion semantics on an ordered list: keep first occurrences. -/
def setInsert {α : Type} [DecidableEq α] (s : List α) (x : α) : List α :=
  if x ∈ s then s else s ++ [x]

/-- The spread of a JS Set built from a list: first-occurrence dedup. -/
def firstDedup {α : Type} [DecidableEq α] (l : List α) : List α :=
  l.foldl setInsert []

namespace ASTProcessor

/-- The per-line scan of _fallbackCursorSelection: skip blank lines and lines
whose trimmed content starts with a hash or a double slash; otherwise take
the position after the first colon, else semicolon, else opening brace, else
the line end, clamped to length-1. -/
def scanLinePositions (codeLen : Nat) : List JStr → Nat → List Nat
  | [], _ => []
  | line :: rest, currentPos =>
    let lineEnd := currentPos + line.length
    let stripped := jsTrim line
    if stripped.isEmpty || ('#' :: []).isPrefixOf stripped
        || ('/' :: '/' :: []).isPrefixOf stripped then
      scanLinePositions codeLen rest (lineEnd + 1)
    else
      let p :=
        if line.contains ':' then min (currentPos + idxOfChar line ':' + 1) (codeLen - 1)
        else if line.contains ';' then min (currentPos + idxOfChar line ';' + 1) (codeLen - 1)
        else if line.contains '\x7b' then min (currentPos + idxOfChar line '\x7b' + 1) (codeLen - 1)
        else min lineEnd (codeLen - 1)
      p :: scanLinePositions codeLen rest (lineEnd + 1)

/-- The deduplicated, range-filtered heuristic candidates of
_fallbackCursorSelection (its uniquePositions before any fallback). -/
def heurCandidates (code : JStr) : List Nat :=
  (firstDedup (scanLinePositions code.length (jsSplit '\n' code) 0)).filter
    (· < code.length)

/-- _fallbackCursorSelection. Randomness is explicit: `shuffle` stands for
the random-comparator sort (any permutation), `rands` for the successive
Math.floor(Math.random() * code.length) draws of the bounded retry loop (at
most 100 are consumed). -/
def fallbackCursorSelection (code : JStr) (numPositions : Nat)
    (shuffle : List Nat → List Nat) (rands : List Nat) : List Nat :=
  if code = [] then [0]
  else
    let len := code.length
    let unique0 := heurCandidates code
    let step := max 1 (len / (numPositions + 1))
    let unique1 :=
      if unique0 = [] then
        (List.range' 1 numPositions).map (fun i => min (i * step) (len - 1))
      else unique0
    let unique2 :=
      if unique1.length < numPositions then
        let afterEven := (List.range' 1 numPositions).foldl
          (fun s i =>
            if s.length < numPositions then setInsert s (min (i * step) (len - 1)) else s)
          unique1
        (rands.take 100).foldl
          (fun s r => if s.length < numPositions then setInsert s r else s) afterEven
      else unique1
    if numPositions < unique2.length then
      List.insertionSort (· ≤ ·) ((shuffle unique2).take numPositions)
    else
      List.insertionSort (· ≤ ·) unique2

/-- selectCursorPositions always delegates to the fallback selection; the
language tag is advisory only. -/
def selectCursorPositions (code : JStr) (_language : JStr) (numPositions : Nat)
    (shuffle : List Nat → List Nat) (rands : List Nat) : List Nat :=
  fallbackCursorSelection code numPositions shuffle rands

end ASTProcessor

/-! ### Identifier / regex-match machinery for the degradation engine

Models the JS regexes of _useWrongVariable and _introduceOffByOne: matches of
the form word-boundary, a start-class character, greedily-extended
continuation-class characters, word-boundary, with the usual backtracking of
the greedy star against the trailing boundary. -/

/-- JS word characters (the regex class backslash-w, ASCII). -/
def isWordChar (c : Char) : Bool := c.isAlphanum || c = '_'

/-- Whether the character at (Int) index i of s is a word character;
out-of-range counts as non-word. -/
def wordAt (s : JStr) (i : Int) : Bool :=
  decide (0 ≤ i ∧ i < (s.length : Int)) && isWordChar (s.getD i.toNat ' ')

/-- The JS regex word boundary at position i (between characters i-1 and i).
-/
def boundaryAt (s : JStr) (i : Nat) : Bool :=
  wordAt s ((i : Int) - 1) != wordAt s i

/-- Try to match boundary, start-class, cont-class star, boundary at
position i; returns the end position of the match (exclusive). The greedy
star backtracks: the largest end in (i, greedyEnd] with a word boundary
wins. -/
def matchTokenAt (s : JStr) (startC contC : Char → Bool) (i : Nat) : Option Nat :=
  if boundaryAt s i ∧ i < s.length ∧ startC (s.getD i ' ') = true then
    let e0 := i + 1 + ((s.drop (i + 1)).takeWhile contC).length
    (List.range' (i + 1) (e0 - i)).reverse.find? (fun e => boundaryAt s e)
  else none

/-- All matches of the token pattern, left to right, each search resuming at
the end of the previous match (String.prototype.matchAll). Fuel-driven; each
step advances at least one position. -/
def tokenMatchesAux (s : JStr) (startC contC : Char → Bool) : Nat → Nat → List JStr
  | 0, _ => []
  | fuel + 1, i =>
    if s.length ≤ i then []
    else
      match matchTokenAt s startC contC i with
      | some e => ((s.take e).drop i) :: tokenMatchesAux s startC contC fuel e
      | none => tokenMatchesAux s startC contC fuel (i + 1)

/-- All matches of the token pattern in s. -/
def tokenMatches (s : JStr) (startC contC : Char → Bool) : List JStr :=
  tokenMatchesAux s startC contC s.length 0

/-- The leftmost match of the token pattern: its start and end positions. -/
def firstTokenMatchAux (s : JStr) (startC contC : Char → Bool) :
    Nat → Nat → Option (Nat × Nat)
  | 0, _ => none
  | fuel + 1, i =>
    if s.length ≤ i then none
    else
      match matchTokenAt s startC contC i with
      | some e => some (i, e)
      | none => firstTokenMatchAux s startC contC fuel (i + 1)

/-- The leftmost match of the token pattern in s. -/
def firstTokenMatch (s : JStr) (startC contC : Char → Bool) : Option (Nat × Nat) :=
  firstTokenMatchAux s startC contC s.length 0

/-- The Python identifier start class of _useWrongVariable. -/
def pyIdentStart (c : Char) : Bool := c.isLower || c = '_'

/-- The Python identifier continuation class. -/
def pyIdentCont (c : Char) : Bool := c.isLower || c.isDigit || c = '_'

/-- The JS identifier start class of _useWrongVariable. -/
def jsIdentStart (c : Char) : Bool := c.isAlpha || c = '_' || c = '$'

/-- The JS identifier continuation class. -/
def jsIdentCont (c : Char) : Bool := c.isAlpha || c.isDigit || c = '_' || c = '$'

/-- Replace the leftmost occurrence of the literal substring old in code by
repl (the String.search / String.match / substring splice idiom used on the
string-valued patterns of the source); code unchanged when old is absent. -/
def replaceFirstSub (code old repl : JStr) : JStr :=
  match subIdx code old with
  | some i => code.take i ++ repl ++ code.drop (i + old.length)
  | none => code

/-- code.replace(new RegExp(boundary + pat + boundary), repl) for an
identifier pat (no regex metacharacters in pat): replace the leftmost
whole-word occurrence only (the RegExp is built without the g flag). -/
def replaceFirstWordOcc (code pat repl : JStr) : JStr :=
  match (List.range (code.length + 1)).find? (fun i =>
      pat.isPrefixOf (code.drop i) && boundaryAt code i
        && boundaryAt code (i + pat.length)) with
  | some i => code.take i ++ repl ++ code.drop (i + pat.length)
  | none => code

/-- Follows the spec's words, for comparison with replaceFirstWordOcc
(the spec claims ALL occurrences are replaced — whole-word substitution):
replace every whole-word occurrence of pat in code by repl. -/
def specReplaceAllAux (code pat repl : JStr) : Nat → Nat → JStr
  | 0, _ => []
  | fuel + 1, i =>
    if i < code.length then
      if pat ≠ [] ∧ pat.isPrefixOf (code.drop i) ∧ boundaryAt code i
          ∧ boundaryAt code (i + pat.length) then
        repl ++ specReplaceAllAux code pat repl fuel (i + pat.length)
      else code.getD i ' ' :: specReplaceAllAux code pat repl fuel (i + 1)
    else []

/-- Follows the spec's words: all whole-word occurrences replaced. -/
def specReplaceAllWordOcc (code pat repl : JStr) : JStr :=
  specReplaceAllAux code pat repl code.length 0

/-! ### NegativeExampleGenerator (src/negative-example-generator.js) -/

namespace NegGen

/-- The apostrophe character (code 39). -/
def apostChar : Char := Char.ofNat 39

/-- The backquote character (code 96). -/
def backqChar : Char := Char.ofNat 96

/-- Method name subtle_bugs. -/
def mSubtle : JStr := String.toList "subtle_bugs"

/-- Method name incomplete. -/
def mIncomplete : JStr := String.toList "incomplete"

/-- Method name wrong_variable. -/
def mWrongVar : JStr := String.toList "wrong_variable"

/-- Method name off_by_one. -/
def mOffByOne : JStr := String.toList "off_by_one"

/-- Method name type_errors. -/
def mTypeErr : JStr := String.toList "type_errors"

/-- Object.keys(this.degradationWeights): the five strategy names in
insertion order. -/
def methodNames : List JStr := [mSubtle, mIncomplete, mWrongVar, mOffByOne, mTypeErr]

/-- The language tag python. -/
def langPy : JStr := String.toList "python"

/-- The language tag javascript. -/
def langJs : JStr := String.toList "javascript"

/-- The language tag typescript. -/
def langTs : JStr := String.toList "typescript"

/-- The replacement table of _introduceSubtleBugs for a language. -/
def subtleBugTable (language : JStr) : List (JStr × JStr) :=
  if language = langPy then
    [(String.toList "==", String.toList "="),
     (String.toList " is ", String.toList " == "),
     (String.toList " and ", String.toList " or "),
     (String.toList "range(len(", String.toList "range(1, len("),
     (String.toList ".append(", String.toList ".extend(")]
  else if language = langJs ∨ language = langTs then
    [(String.toList "===", String.toList "=="),
     (String.toList "!==", String.toList "!="),
     (String.toList "let ", String.toList "var "),
     (String.toList ".push(", String.toList ".concat("),
     (String.toList "&&", String.toList "||")]
  else
    [(String.toList "++", String.toList "--"),
     (String.toList "&&", String.toList "||"),
     (String.toList "<=", String.toList "<"),
     (String.toList ">=", String.toList ">")]

/-- The replacement table of _introduceTypeErrors for a language. -/
def typeErrTable (language : JStr) : List (JStr × JStr) :=
  if language = langPy then
    [([apostChar], ['"']),
     (String.toList "str(", String.toList "int("),
     (String.toList "int(", String.toList "str("),
     (String.toList ".split()", String.toList ".strip()"),
     (String.toList "[]", ['\x7b', '\x7d'])]
  else if language = langJs ∨ language = langTs then
    [(String.toList "toString()", String.toList "toNumber()"),
     (String.toList "parseInt(", String.toList "parseFloat("),
     (String.toList "[]", ['\x7b', '\x7d']),
     ([apostChar], [backqChar])]
  else
    [(String.toList "int", String.toList "float"),
     (String.toList "float", String.toList "int"),
     (String.toList "[]", ['\x7b', '\x7d'])]

/-- _introduceSubtleBugs: pick one candidate pattern at random from the
language table and replace only its first occurrence. The random draw
Math.floor(Math.random() * table.length) is supplied pre-floored; it is
reduced mod the table length, the identity for every realizable draw. -/
def introduceSubtleBugs (code language : JStr) (pick : Nat) : JStr :=
  let table := subtleBugTable language
  let pair := table.getD (pick % table.length) ([], [])
  replaceFirstSub code pair.1 pair.2

/-- _makeIncomplete: cut at floor((60 + r*20) percent) of the length (`r` is
the Math.random() draw), then back up to the previous newline when that
newline lies within the last 20 characters before the cut. -/
def makeIncomplete (code : JStr) (r : ℚ) : JStr :=
  if code = [] then code
  else
    let cutPoint : Int := Int.floor ((60 + r * 20) * (code.length : ℚ) / 100)
    let incomplete := jsSubstring code 0 cutPoint
    let lastNewline := lastIdxOfChar incomplete '\n'
    if cutPoint - 20 < lastNewline then jsSubstring incomplete 0 lastNewline
    else incomplete

/-- The deduplicated identifier tokens that _useWrongVariable extracts via
the language-appropriate pattern. -/
def identVars (code language : JStr) : List JStr :=
  let startC := if language = langPy then pyIdentStart else jsIdentStart
  let contC := if language = langPy then pyIdentCont else jsIdentCont
  firstDedup (tokenMatches code startC contC)

/-- _useWrongVariable: extract identifier tokens via the language pattern,
dedup; with at least two distinct identifiers, draw var1, then redraw var2
until it differs, and replace the first whole-word occurrence of var1 by
var2. `draws` are the successive pre-floored index draws (reduced mod the
count, the identity for realizable draws); none models the while-loop
running out of the supplied draws (it would keep drawing). -/
def useWrongVariable (code language : JStr) (draws : List Nat) : Option JStr :=
  let vars := identVars code language
  if 1 < vars.length then
    match draws with
    | [] => none
    | d0 :: rest =>
      let var1 := vars.getD (d0 % vars.length) []
      match rest.find? (fun d => decide (vars.getD (d % vars.length) [] ≠ var1)) with
      | none => none
      | some d =>
        let var2 := vars.getD (d % vars.length) []
        some (replaceFirstWordOcc code var1 var2)
  else some code

/-- Numeric value of a digit run (JS parseInt on a decimal literal). -/
def natOfDigits (l : JStr) : Nat :=
  l.foldl (fun n c => n * 10 + (c.toNat - '0'.toNat)) 0

/-- Decimal digits of a natural number (JS String conversion). -/
def digitsOfNat (n : Nat) : JStr := (Nat.repr n).toList

/-- The range( literal of the fourth off-by-one pattern. -/
def rangeLit : JStr := String.toList "range("

/-- The leftmost match of the pattern range-paren-digits-paren: its start
index and the digit run. -/
def findRangeCall (code : JStr) : Option (Nat × JStr) :=
  match (List.range (code.length + 1)).find? (fun i =>
      rangeLit.isPrefixOf (code.drop i)
        && decide ((code.drop (i + 6)).takeWhile Char.isDigit ≠ [])
        && decide ((code.drop (i + 6 + ((code.drop (i + 6)).takeWhile Char.isDigit).length)).head?
            = some ')')) with
  | some i => some (i, (code.drop (i + 6)).takeWhile Char.isDigit)
  | none => none

/-- _introduceOffByOne: in fixed order, relax the first less-equal, else the
first greater-equal, else increment the first standalone numeric literal,
else increment the integer argument of the first range call; the first
matching pattern wins. -/
def introduceOffByOne (code : JStr) : JStr :=
  if (subIdx code (String.toList "<=")).isSome then
    replaceFirstSub code (String.toList "<=") (String.toList "<")
  else if (subIdx code (String.toList ">=")).isSome then
    replaceFirstSub code (String.toList ">=") (String.toList ">")
  else
    match firstTokenMatch code Char.isDigit Char.isDigit with
    | some (i, e) =>
      code.take i ++ digitsOfNat (natOfDigits ((code.take e).drop i) + 1) ++ code.drop e
    | none =>
      match findRangeCall code with
      | some (i, ds) =>
        code.take i ++ rangeLit ++ digitsOfNat (natOfDigits ds + 1) ++ [')']
          ++ code.drop (i + 6 + ds.length + 1)
      | none => code

/-- _introduceTypeErrors: pick one substitution at random from the language
table and replace only its first occurrence. -/
def introduceTypeErrors (code language : JStr) (pick : Nat) : JStr :=
  let table := typeErrTable language
  let pair := table.getD (pick % table.length) ([], [])
  replaceFirstSub code pair.1 pair.2

/-- The explicit random draws consumed by one _applyDegradation dispatch. -/
structure DegRand where
  bugPick : Nat
  incDraw : ℚ
  wvDraws : List Nat
  tePick : Nat

/-- _applyDegradation: empty code is returned unchanged before any dispatch;
otherwise dispatch on the method name (unknown methods return the code). The
JS try/catch is vacuous here: no modelled branch throws; the only partiality
is the wrong_variable redraw loop (none). -/
def applyDegradation (code method language : JStr) (r : DegRand) : Option JStr :=
  if code = [] then some code
  else if method = mSubtle then some (introduceSubtleBugs code language r.bugPick)
  else if method = mIncomplete then some (makeIncomplete code r.incDraw)
  else if method = mWrongVar then useWrongVariable code language r.wvDraws
  else if method = mOffByOne then some (introduceOffByOne code)
  else if method = mTypeErr then some (introduceTypeErrors code language r.tePick)
  else some code

/-- The method loop of generateNegativeExamples: try the methods in table
order until one produces a non-empty result different from the input;
some (some (degraded, method)) on success, some none when every method
fails, none on divergence. -/
def tryMethods (completion language : JStr) (r : DegRand) :
    List JStr → Option (Option (JStr × JStr))
  | [] => some none
  | m :: ms =>
    match applyDegradation completion m language r with
    | none => none
    | some d =>
      if d ≠ [] ∧ d ≠ completion then some (some (d, m))
      else tryMethods completion language r ms

/-- A positive example as consumed by the generator: only the prompt, the
completion and the metadata language matter. -/
structure PosExample where
  prompt : JStr
  completion : JStr
  language : Option JStr
deriving DecidableEq

/-- The metadata of an emitted negative example. -/
structure KTOMeta where
  language : Option JStr
  degradationMethod : Option JStr
deriving DecidableEq

/-- Modelled from the spec: KTOExample (types.js absent from src/) is an
immutable value record; per spec section 3 and the types tests it stores its
constructor arguments unchanged. The completion is an Option because the
generator can pass the JS null sentinel through. -/
structure KTOExample where
  prompt : JStr
  completion : Option JStr
  label : Bool
  metadata : KTOMeta
deriving DecidableEq

/-- The body of generateNegativeExamples for one positive example:
the method loop, then the forced fallback (the literal undefined with method
tag corruption for short non-blank completions, 70 percent truncation with
method tag incomplete for longer ones), then the emission guard. The JS
guard degradedCompletion !== undefined is vacuously true because that
variable only ever holds null or a string; the effective guard is
degradedCompletion !== example.completion. In the truncation branch
Math.floor(length * 0.7) is modelled with exact rational arithmetic. -/
def generateNegativeForExample (ex : PosExample) (r : DegRand) :
    Option (Option KTOExample) :=
  let language := match ex.language with
    | some l => if l = [] then langJs else l
    | none => langJs
  match tryMethods ex.completion language r methodNames with
  | none => none
  | some found =>
    let degraded0 : Option JStr := found.map (·.1)
    let used0 : Option JStr := found.map (·.2)
    let bad : Bool := match degraded0 with
      | none => true
      | some d => d.isEmpty || decide (d = ex.completion)
    let pair :=
      if bad then
        if ex.completion ≠ [] then
          if ex.completion.length ≤ 5 then
            if jsTrim ex.completion ≠ [] then
              (some (String.toList "undefined"), some (String.toList "corruption"))
            else (degraded0, used0)
          else
            (some (jsSubstring ex.completion 0
                (Int.floor ((ex.completion.length : ℚ) * (7 / 10)))),
             some mIncomplete)
        else (degraded0, used0)
      else (degraded0, used0)
    if pair.1 ≠ some ex.completion then
      some (some ⟨ex.prompt, pair.1, false, ⟨ex.language, pair.2⟩⟩)
    else some none

/-- generateNegativeExamples over a list of positives, each with its own
random draws; none when any example's processing diverges. -/
def generateNegativeExamples : List (PosExample × DegRand) → Option (List KTOExample)
  | [] => some []
  | (ex, r) :: rest =>
    match generateNegativeForExample ex r with
    | none => none
    | some none => generateNegativeExamples rest
    | some (some k) => (generateNegativeExamples rest).map (k :: ·)

end NegGen

end Fimgen

namespace Fimgen

open SRM

/-! ### Theorems for claim C7 (extractRegion totality and bounds) -/

/-- The computed slice bounds of extractRegion. -/
theorem extractRegion_length (t : JStr) (a b : Int) :
    (extractRegion t a b).length =
      (max (max 0 (min a t.length)) (min b t.length)).toNat -
        (max 0 (min a t.length)).toNat := by
  unfold extractRegion
  simp only [List.length_drop, List.length_take]
  omega

/-- C7: extractRegion clamps both bounds, never returns out-of-range text,
returns the empty string whenever end ≤ start, its result is never longer
than the text nor than max(0, end-start), and the full range round-trips to
the text itself. -/
theorem C7_extractRegion_total_bounds (t : JStr) (a b : Int) :
    (extractRegion t a b).length ≤ t.length ∧
    ((extractRegion t a b).length : Int) ≤ max 0 (b - a) ∧
    (b ≤ a → extractRegion t a b = []) ∧
    extractRegion t 0 (t.length : Int) = t := by
  refine ⟨?_, ?_, ?_, ?_⟩
  · rw [extractRegion_length]; omega
  · rw [extractRegion_length]; omega
  · intro hba
    have hlen : (extractRegion t a b).length = 0 := by
      rw [extractRegion_length]; omega
    exact List.eq_nil_of_length_eq_zero hlen
  · unfold extractRegion
    simp

/-- Witness for C7 at concrete inputs. -/
theorem C7_extractRegion_total_bounds_witness :
    extractRegion ('h' :: 'e' :: 'l' :: 'l' :: 'o' :: []) 3 1 = [] :=
  (C7_extractRegion_total_bounds ('h' :: 'e' :: 'l' :: 'l' :: 'o' :: []) 3 1).2.2.1
    (by decide)

/-! ### Helper lemmas about clamping and slicing -/

theorem clampPosition_of_le (t : JStr) (c : Nat) (h : c ≤ t.length) :
    clampPosition t (c : Int) = c := by
  unfold clampPosition; omega

theorem clampPosition_le (t : JStr) (p : Int) : clampPosition t p ≤ t.length := by
  unfold clampPosition; omega

theorem extractRegion_take_drop (t : JStr) (s e : Nat) (h1 : s ≤ e)
    (h2 : e ≤ t.length) : extractRegion t (s : Int) (e : Int) = (t.take e).drop s := by
  have h : extractRegion t (s : Int) (e : Int)
      = (t.take ((max (max 0 (min (s : Int) t.length)) (min (e : Int) t.length)).toNat)).drop
          ((max 0 (min (s : Int) t.length)).toNat) := rfl
  rw [h]
  have hs : (max 0 (min (s : Int) (t.length : Int))).toNat = s := by omega
  have he : (max (max 0 (min (s : Int) (t.length : Int)))
      (min (e : Int) (t.length : Int))).toNat = e := by omega
  rw [hs, he]

theorem extractRegion_zero_take (t : JStr) (e : Nat) (h : e ≤ t.length) :
    extractRegion t 0 (e : Int) = t.take e := by
  have := extractRegion_take_drop t 0 e (Nat.zero_le e) h
  simpa using this

theorem extractRegion_to_length (t : JStr) (s : Nat) (h : s ≤ t.length) :
    extractRegion t (s : Int) (t.length : Int) = t.drop s := by
  have := extractRegion_take_drop t s t.length h le_rfl
  simpa using this

/-- The completion of the PSM and SPM middle window: exact length. -/
theorem extractRegion_middle_length (t : JStr) (c : Nat) (h : c ≤ t.length) :
    (extractRegion t (c : Int) ((c + min 50 (t.length - c) : Nat) : Int)).length
      = min 50 (t.length - c) := by
  rw [extractRegion_length]
  omega

/-- The middle-window completion never exceeds 50 characters, for any cursor
value the builder state may hold. -/
theorem extractRegion_middle_le_50 (t : JStr) (len c : Nat) :
    (extractRegion t (c : Int) ((c + min 50 (len - c) : Nat) : Int)).length ≤ 50 := by
  rw [extractRegion_length]
  omega

/-- Reduction of the Except monad bind on a success value. -/
theorem exceptBind_ok {α β : Type} (a : α) (f : α → Except JStr β) :
    ((Except.ok a : Except JStr α) >>= f) = f a := rfl

/-! ### Theorems for claim C1 (ZED-format assembly) -/

/-- C1: for every code string, editable region [start, end] inside it and
cursor within the region (up to one past the inclusive end), the builder
chain produces exactly the ZED example of the spec: prompt
text[0:start] ++ region-start token ++ text[start:cursor] ++ cursor token;
completion text[cursor:end+1] (empty when cursor = end+1); context adds the
completion, the region-end token and the tail. In particular the prompt
contains the region-start token, the slice and the cursor token in order. -/
theorem C1_zed_assembly (code : JStr) (s e c : Nat) (r : ℚ)
    (hcode : code ≠ []) (hse : s ≤ e) (helen : e < code.length)
    (hsc : s ≤ c) (hce : c ≤ e + 1) :
    (do
      let b1 ← FIMExampleBuilder.withCode .empty code
      let b2 ← FIMExampleBuilder.withCursor b1 (c : Int)
      let b3 ← FIMExampleBuilder.withEditableRegion b2 (s : Int) (e : Int)
      let b4 ← FIMExampleBuilder.withFormat b3 FIMFormat.ZED
      FIMExampleBuilder.build b4 r) =
    .ok ⟨code.take s ++ FIMExampleBuilder.tokRegionStart
          ++ (code.take c).drop s ++ FIMExampleBuilder.tokCursor,
         (code.take (e + 1)).drop c,
         code.take s ++ FIMExampleBuilder.tokRegionStart
          ++ (code.take c).drop s ++ FIMExampleBuilder.tokCursor
          ++ (code.take (e + 1)).drop c ++ FIMExampleBuilder.tokRegionEnd
          ++ code.drop (e + 1),
         FIMFormat.ZED, c, (s, e), none⟩ := by
  have hlen1 : 1 ≤ code.length := List.length_pos.mpr hcode
  have hclen : c ≤ code.length := by omega
  have step1 : FIMExampleBuilder.withCode .empty code =
      .ok ⟨code, none, none, none, none, some code⟩ := by
    unfold FIMExampleBuilder.withCode
    simp [hcode, FIMExampleBuilder.empty]
  have step2 : FIMExampleBuilder.withCursor
      ⟨code, none, none, none, none, some code⟩ (c : Int) =
      .ok ⟨code, some c, none, none, none, some code⟩ := by
    unfold FIMExampleBuilder.withCursor
    simp [clampPosition_of_le code c hclen]
  have step3 : FIMExampleBuilder.withEditableRegion
      ⟨code, some c, none, none, none, some code⟩ (s : Int) (e : Int) =
      .ok ⟨code, some c, some (s, e), none, none, some code⟩ := by
    unfold FIMExampleBuilder.withEditableRegion
    have hvs : max 0 (min (s : Int) ((code.length : Int) - 1)) = (s : Int) := by omega
    have hve : max (max 0 (min (s : Int) ((code.length : Int) - 1)))
        (min (e : Int) ((code.length : Int) - 1)) = (e : Int) := by omega
    simp only [hvs, hve]
    split_ifs with hcon
    · exact absurd hcon (by omega)
    · simp
      all_goals omega
  have step4 : FIMExampleBuilder.withFormat
      ⟨code, some c, some (s, e), none, none, some code⟩ FIMFormat.ZED =
      .ok ⟨code, some c, some (s, e), some FIMFormat.ZED, none, some code⟩ := by
    unfold FIMExampleBuilder.withFormat
    simp [FIMFormat.values]
  have step5 : FIMExampleBuilder.validate
      ⟨code, some c, some (s, e), some FIMFormat.ZED, none, some code⟩ = none := by
    unfold FIMExampleBuilder.validate
    simp [hcode, FIMFormat.ZED]
  simp only [step1, exceptBind_ok, step2, step3, step4]
  unfold FIMExampleBuilder.build
  simp only [step5]
  simp only [if_true]
  -- step 6: the ZED assembly itself
  unfold FIMExampleBuilder.buildZedFormat
  simp only [FIMExampleBuilder.managerText, Option.getD_some]
  have h0s : extractRegion code 0 (s : Int) = code.take s :=
    extractRegion_zero_take code s (by omega)
  have hsc' : extractRegion code (s : Int) (c : Int) = (code.take c).drop s :=
    extractRegion_take_drop code s c hsc hclen
  have hce' : extractRegion code (c : Int) ((e : Int) + 1) = (code.take (e + 1)).drop c := by
    have := extractRegion_take_drop code c (e + 1) hce (by omega)
    push_cast at this ⊢
    exact this
  have htail : extractRegion code ((e : Int) + 1) (code.length : Int) = code.drop (e + 1) := by
    have := extractRegion_to_length code (e + 1) (by omega)
    push_cast at this ⊢
    exact this
  have hcomp : (if e < c then [] else extractRegion code (c : Int) ((e : Int) + 1))
      = (code.take (e + 1)).drop c := by
    by_cases hec : e < c
    · have hc1 : c = e + 1 := by omega
      rw [if_pos hec, hc1]
      rw [eq_comm]
      apply List.drop_eq_nil_of_le
      simp
    · rw [if_neg hec, hce']
  simp only [SRM.buildWithTokens, List.foldl, h0s, hsc', hce', htail, hcomp]
  simp [List.append_assoc]
  omega

/-- Witness for C1 at the spec's concrete scenario: code ABC, cursor 1,
region [0, 2]; the prompt carries region-start token, A, cursor token, and
the completion is BC. -/
theorem C1_zed_assembly_witness :
    (do
      let b1 ← FIMExampleBuilder.withCode .empty ('A' :: 'B' :: 'C' :: [])
      let b2 ← FIMExampleBuilder.withCursor b1 (1 : Int)
      let b3 ← FIMExampleBuilder.withEditableRegion b2 (0 : Int) (2 : Int)
      let b4 ← FIMExampleBuilder.withFormat b3 FIMFormat.ZED
      FIMExampleBuilder.build b4 0) =
    .ok ⟨FIMExampleBuilder.tokRegionStart ++ ('A' :: [])
          ++ FIMExampleBuilder.tokCursor,
         'B' :: 'C' :: [],
         FIMExampleBuilder.tokRegionStart ++ ('A' :: [])
          ++ FIMExampleBuilder.tokCursor ++ ('B' :: 'C' :: [])
          ++ FIMExampleBuilder.tokRegionEnd,
         FIMFormat.ZED, 1, (0, 2), none⟩ := by
  have h := C1_zed_assembly ('A' :: 'B' :: 'C' :: []) 0 2 1 0
    (by decide) (by decide) (by decide) (by decide) (by decide)
  exact h

/-! ### Theorems for claim C3 (PSM/SPM middle-window cap) -/

/-- validate returns none only when all four required fields are set. -/
theorem validate_none_parts (b : FIMExampleBuilder)
    (h : FIMExampleBuilder.validate b = none) :
    b.code ≠ [] ∧ b.format ≠ none ∧ b.editableRegion ≠ none
      ∧ b.cursorPosition ≠ none := by
  unfold FIMExampleBuilder.validate at h
  split_ifs at h
  cases hf : b.format with
  | none => rw [hf] at h; simp at h
  | some f =>
    rw [hf] at h
    simp only at h
    split_ifs at h
    cases hr : b.editableRegion with
    | none => rw [hr] at h; simp at h
    | some rg =>
      rw [hr] at h
      simp only at h
      cases hc : b.cursorPosition with
      | none => rw [hc] at h; simp at h
      | some c => exact ⟨by assumption, by simp [hf], by simp [hr], by simp [hc]⟩

/-- The completion of buildPSMFormat, for a builder whose manager wraps its
code. -/
theorem buildPSMFormat_completion_length (b : FIMExampleBuilder)
    (hm : b.manager = some b.code) :
    (FIMExampleBuilder.buildPSMFormat b).completion.length ≤ 50 ∧
    ((FIMExampleBuilder.buildPSMFormat b).cursorPosition ≤ b.code.length →
      (FIMExampleBuilder.buildPSMFormat b).completion.length =
        min 50 (b.code.length - (FIMExampleBuilder.buildPSMFormat b).cursorPosition)) := by
  unfold FIMExampleBuilder.buildPSMFormat
  simp only [FIMExampleBuilder.managerText, hm, Option.getD_some]
  exact ⟨extractRegion_middle_le_50 b.code b.code.length _,
    fun hc => extractRegion_middle_length b.code _ hc⟩

/-- The completion of buildSPMFormat, for a builder whose manager wraps its
code. -/
theorem buildSPMFormat_completion_length (b : FIMExampleBuilder)
    (hm : b.manager = some b.code) :
    (FIMExampleBuilder.buildSPMFormat b).completion.length ≤ 50 ∧
    ((FIMExampleBuilder.buildSPMFormat b).cursorPosition ≤ b.code.length →
      (FIMExampleBuilder.buildSPMFormat b).completion.length =
        min 50 (b.code.length - (FIMExampleBuilder.buildSPMFormat b).cursorPosition)) := by
  unfold FIMExampleBuilder.buildSPMFormat
  simp only [FIMExampleBuilder.managerText, hm, Option.getD_some]
  exact ⟨extractRegion_middle_le_50 b.code b.code.length _,
    fun hc => extractRegion_middle_length b.code _ hc⟩

/-- C3: every PSM or SPM example has the middle window min(50, length-cursor):
for the builder (any built example whose format is PSM or SPM) and for the
transformer's PSM and SPM assembly; the completion never exceeds 50
characters, and for the spec's 200-character scenario with cursor 10 it is
exactly 50. -/
theorem C3_psm_spm_middle_cap :
    (∀ (b : FIMExampleBuilder) (r : ℚ) (ex : FIMExample),
      FIMExampleBuilder.build b r = .ok ex →
      b.manager = some b.code →
      (ex.format = FIMFormat.PSM ∨ ex.format = FIMFormat.SPM) →
      ex.completion.length ≤ 50 ∧
        (ex.cursorPosition ≤ b.code.length →
          ex.completion.length = min 50 (b.code.length - ex.cursorPosition))) ∧
    (∀ (code : JStr) (p : Int) (region : Nat × Nat) (meta : Option BuilderMeta),
      (FIMTransformer.createPSMFormatExample code p region meta).completion.length
          = min 50 (code.length - SRM.clampPosition code p) ∧
      (FIMTransformer.createPSMFormatExample code p region meta).completion.length ≤ 50 ∧
      (FIMTransformer.createSPMFormatExample code p region meta).completion.length
          = min 50 (code.length - SRM.clampPosition code p) ∧
      (FIMTransformer.createSPMFormatExample code p region meta).completion.length ≤ 50) ∧
    (∀ ex, (do
        let b1 ← FIMExampleBuilder.withCode .empty (List.replicate 200 'x')
        let b2 ← FIMExampleBuilder.withCursor b1 (10 : Int)
        let b3 ← FIMExampleBuilder.withEditableRegion b2 (0 : Int) (200 : Int)
        let b4 ← FIMExampleBuilder.withFormat b3 FIMFormat.PSM
        FIMExampleBuilder.build b4 0) = .ok ex →
      ex.completion.length = 50) := by
  refine ⟨?_, ?_, ?_⟩
  · intro b r ex hbuild hm hform
    unfold FIMExampleBuilder.build at hbuild
    cases hv : FIMExampleBuilder.validate b with
    | some msg => rw [hv] at hbuild; simp at hbuild
    | none =>
      rw [hv] at hbuild
      obtain ⟨hcode, hfmt, hreg, hcur⟩ := validate_none_parts b hv
      cases hf : b.format with
      | none => exact absurd hf hfmt
      | some f =>
        rw [hf] at hbuild
        simp only at hbuild
        split_ifs at hbuild with hz hp hs hx hr2
        · -- ZED branch contradicts the PSM/SPM hypothesis
          have hex : ex = FIMExampleBuilder.buildZedFormat b := by
            cases hbuild; rfl
          rw [hex] at hform
          unfold FIMExampleBuilder.buildZedFormat at hform
          simp only at hform
          rcases hform with hbad | hbad <;> exact absurd hbad (by decide)
        · have hex : ex = FIMExampleBuilder.buildPSMFormat b := by
            cases hbuild; rfl
          rw [hex]
          exact buildPSMFormat_completion_length b hm
        · have hex : ex = FIMExampleBuilder.buildSPMFormat b := by
            cases hbuild; rfl
          rw [hex]
          exact buildSPMFormat_completion_length b hm
        · have hex : ex = FIMExampleBuilder.buildPSMFormat b := by
            cases hbuild; rfl
          rw [hex]
          exact buildPSMFormat_completion_length b hm
        · have hex : ex = FIMExampleBuilder.buildSPMFormat b := by
            cases hbuild; rfl
          rw [hex]
          exact buildSPMFormat_completion_length b hm
  · intro code p region meta
    have hc : SRM.clampPosition code p ≤ code.length := clampPosition_le code p
    unfold FIMTransformer.createPSMFormatExample FIMTransformer.createSPMFormatExample
    simp only
    exact ⟨extractRegion_middle_length code _ hc,
      extractRegion_middle_le_50 code code.length _,
      extractRegion_middle_length code _ hc,
      extractRegion_middle_le_50 code code.length _⟩
  · intro ex hchain
    have hlen : (List.replicate 200 'x').length = 200 := by
      rw [List.length_replicate]
    have hne : List.replicate 200 'x' ≠ ([] : JStr) := by
      intro h
      rw [h] at hlen
      simp at hlen
    have step1 : FIMExampleBuilder.withCode .empty (List.replicate 200 'x') =
        .ok ⟨List.replicate 200 'x', none, none, none, none,
             some (List.replicate 200 'x')⟩ := by
      unfold FIMExampleBuilder.withCode
      rw [if_neg hne]
      rfl
    have hclamp : SRM.clampPosition (List.replicate 200 'x') 10 = 10 := by
      unfold SRM.clampPosition
      rw [hlen]
      decide
    have step2 : FIMExampleBuilder.withCursor
        ⟨List.replicate 200 'x', none, none, none, none,
         some (List.replicate 200 'x')⟩ (10 : Int) =
        .ok ⟨List.replicate 200 'x', some 10, none, none, none,
             some (List.replicate 200 'x')⟩ := by
      unfold FIMExampleBuilder.withCursor
      simp only [hclamp]
    have step3 : FIMExampleBuilder.withEditableRegion
        ⟨List.replicate 200 'x', some 10, none, none, none,
         some (List.replicate 200 'x')⟩ (0 : Int) (200 : Int) =
        .ok ⟨List.replicate 200 'x', some 10, some (0, 199), none, none,
             some (List.replicate 200 'x')⟩ := by
      unfold FIMExampleBuilder.withEditableRegion
      simp only [hlen]
      norm_num
      try decide
    have step4 : FIMExampleBuilder.withFormat
        ⟨List.replicate 200 'x', some 10, some (0, 199), none, none,
         some (List.replicate 200 'x')⟩ FIMFormat.PSM =
        .ok ⟨List.replicate 200 'x', some 10, some (0, 199), some FIMFormat.PSM,
             none, some (List.replicate 200 'x')⟩ := by
      unfold FIMExampleBuilder.withFormat
      simp [FIMFormat.values]
    have step5 : FIMExampleBuilder.validate
        ⟨List.replicate 200 'x', some 10, some (0, 199), some FIMFormat.PSM,
         none, some (List.replicate 200 'x')⟩ = none := by
      unfold FIMExampleBuilder.validate
      rw [if_neg hne]
      rfl
    simp only [step1, exceptBind_ok, step2, step3, step4] at hchain
    unfold FIMExampleBuilder.build at hchain
    simp only [step5] at hchain
    have hne1 : (FIMFormat.PSM = FIMFormat.ZED) = False := eq_false (by decide)
    simp only [hne1, if_false, if_true] at hchain
    have hex : ex = FIMExampleBuilder.buildPSMFormat
        ⟨List.replicate 200 'x', some 10, some (0, 199), some FIMFormat.PSM,
         none, some (List.replicate 200 'x')⟩ := by
      cases hchain; rfl
    rw [hex]
    have hres := (buildPSMFormat_completion_length
      ⟨List.replicate 200 'x', some 10, some (0, 199), some FIMFormat.PSM,
       none, some (List.replicate 200 'x')⟩ rfl).2
    have hcur : (FIMExampleBuilder.buildPSMFormat
        ⟨List.replicate 200 'x', some 10, some (0, 199), some FIMFormat.PSM,
         none, some (List.replicate 200 'x')⟩).cursorPosition = 10 := rfl
    rw [hcur] at hres
    rw [hres (by rw [hlen]; omega)]
    rw [hlen]
    decide

/-- Witness for C3: a tiny concrete PSM build through the theorem. -/
theorem C3_psm_spm_middle_cap_witness :
    (FIMExampleBuilder.buildPSMFormat
      ⟨'a' :: 'b' :: [], some 1, some (0, 1), some FIMFormat.PSM, none,
       some ('a' :: 'b' :: [])⟩).completion.length ≤ 50 :=
  ((C3_psm_spm_middle_cap).1
    ⟨'a' :: 'b' :: [], some 1, some (0, 1), some FIMFormat.PSM, none,
     some ('a' :: 'b' :: [])⟩ 0 _ rfl rfl (Or.inl rfl)).1

/-! ### Theorems for claim C8 (builder state-machine errors), amended -/

/-- C8 (amended): withCursor and withEditableRegion before withCode throw;
withCode throws only on the empty string (whitespace-only code is accepted),
stores the code and the manager, and leaves all previously set fields
unchanged; build() throws whenever code, format, region or cursor is unset.
-/
theorem C8_builder_state_machine :
    (∀ (b : FIMExampleBuilder) (p : Int), b.manager = none →
      ∃ m, FIMExampleBuilder.withCursor b p = .error m) ∧
    (∀ (b : FIMExampleBuilder) (s e : Int), b.manager = none →
      ∃ m, FIMExampleBuilder.withEditableRegion b s e = .error m) ∧
    (∀ b : FIMExampleBuilder, ∃ m, FIMExampleBuilder.withCode b [] = .error m) ∧
    (∀ (b : FIMExampleBuilder) (code : JStr), code ≠ [] →
      FIMExampleBuilder.withCode b code =
        .ok { b with code := code, manager := some code }) ∧
    (∀ (b : FIMExampleBuilder) (r : ℚ),
      b.code = [] ∨ b.format = none ∨ b.editableRegion = none
        ∨ b.cursorPosition = none →
      ∃ m, FIMExampleBuilder.build b r = .error m) := by
  refine ⟨?_, ?_, ?_, ?_, ?_⟩
  · intro b p hm
    refine ⟨'c' :: 'u' :: 'r' :: 's' :: 'o' :: 'r' :: [], ?_⟩
    unfold FIMExampleBuilder.withCursor
    rw [hm]
  · intro b s e hm
    refine ⟨'r' :: 'e' :: 'g' :: 'i' :: 'o' :: 'n' :: [], ?_⟩
    unfold FIMExampleBuilder.withEditableRegion
    rw [hm]
  · intro b
    refine ⟨'C' :: 'o' :: 'd' :: 'e' :: [], ?_⟩
    unfold FIMExampleBuilder.withCode
    simp
  · intro b code hcode
    unfold FIMExampleBuilder.withCode
    simp [hcode]
  · intro b r hmiss
    unfold FIMExampleBuilder.build
    cases hv : FIMExampleBuilder.validate b with
    | some msg => exact ⟨msg, rfl⟩
    | none =>
      obtain ⟨h1, h2, h3, h4⟩ := validate_none_parts b hv
      rcases hmiss with h | h | h | h
      · exact absurd h h1
      · exact absurd h h2
      · exact absurd h h3
      · exact absurd h h4

/-- Witness for C8 at concrete states. -/
theorem C8_builder_state_machine_witness :
    (∃ m, FIMExampleBuilder.withCursor .empty 3 = .error m) ∧
    (∃ m, FIMExampleBuilder.build .empty 0 = .error m) :=
  ⟨(C8_builder_state_machine).1 .empty 3 rfl,
   (C8_builder_state_machine).2.2.2.2 .empty 0 (Or.inl rfl)⟩

/-- Counterexample for C8 as stated: withCode accepts whitespace-only code
(the JS truthiness check only rejects the empty string), and it does not
reset previously set derived state (the cursor survives a second withCode).
-/
theorem C8_counterexample :
    FIMExampleBuilder.withCode .empty (' ' :: []) =
      .ok ⟨' ' :: [], none, none, none, none, some (' ' :: [])⟩ ∧
    FIMExampleBuilder.withCode ⟨[], some 3, none, none, none, none⟩ ('a' :: []) =
      .ok ⟨'a' :: [], some 3, none, none, none, some ('a' :: [])⟩ :=
  ⟨rfl, rfl⟩

/-! ### Theorems for claim C9 (MIXED resolution invariant) -/

/-- C9: every successfully built example carries one of the three concrete
format identifiers and never the mixed identifier; a builder whose format is
mixed resolves, per call, to PSM when the draw is below one half and to SPM
otherwise. -/
theorem C9_mixed_resolution :
    (∀ (b : FIMExampleBuilder) (r : ℚ) (ex : FIMExample),
      FIMExampleBuilder.build b r = .ok ex →
      (ex.format = FIMFormat.PSM ∨ ex.format = FIMFormat.SPM
        ∨ ex.format = FIMFormat.ZED) ∧ ex.format ≠ FIMFormat.MIXED) ∧
    (∀ (b : FIMExampleBuilder) (r : ℚ) (ex : FIMExample),
      b.format = some FIMFormat.MIXED →
      FIMExampleBuilder.build b r = .ok ex →
      ex.format = (if r < 1/2 then FIMFormat.PSM else FIMFormat.SPM)) := by
  constructor
  · intro b r ex hbuild
    unfold FIMExampleBuilder.build at hbuild
    cases hv : FIMExampleBuilder.validate b with
    | some msg => rw [hv] at hbuild; simp at hbuild
    | none =>
      rw [hv] at hbuild
      cases hf : b.format with
      | none => rw [hf] at hbuild; simp at hbuild
      | some f =>
        rw [hf] at hbuild
        simp only at hbuild
        split_ifs at hbuild with hz hp hs hx hr2
        · have hex : ex = FIMExampleBuilder.buildZedFormat b := by
            cases hbuild; rfl
          rw [hex]
          exact ⟨Or.inr (Or.inr rfl), (by decide : FIMFormat.ZED ≠ FIMFormat.MIXED)⟩
        · have hex : ex = FIMExampleBuilder.buildPSMFormat b := by
            cases hbuild; rfl
          rw [hex]
          exact ⟨Or.inl rfl, (by decide : FIMFormat.PSM ≠ FIMFormat.MIXED)⟩
        · have hex : ex = FIMExampleBuilder.buildSPMFormat b := by
            cases hbuild; rfl
          rw [hex]
          exact ⟨Or.inr (Or.inl rfl), (by decide : FIMFormat.SPM ≠ FIMFormat.MIXED)⟩
        · have hex : ex = FIMExampleBuilder.buildPSMFormat b := by
            cases hbuild; rfl
          rw [hex]
          exact ⟨Or.inl rfl, (by decide : FIMFormat.PSM ≠ FIMFormat.MIXED)⟩
        · have hex : ex = FIMExampleBuilder.buildSPMFormat b := by
            cases hbuild; rfl
          rw [hex]
          exact ⟨Or.inr (Or.inl rfl), (by decide : FIMFormat.SPM ≠ FIMFormat.MIXED)⟩
  · intro b r ex hf hbuild
    unfold FIMExampleBuilder.build at hbuild
    cases hv : FIMExampleBuilder.validate b with
    | some msg => rw [hv] at hbuild; simp at hbuild
    | none =>
      rw [hv, hf] at hbuild
      simp only at hbuild
      split_ifs at hbuild with h1 h2 h3 h4
      · exact absurd h1 (by decide)
      · exact absurd h2 (by decide)
      · exact absurd h3 (by decide)
      · rw [if_pos h4]
        cases hbuild; rfl
      · rw [if_neg h4]
        cases hbuild; rfl

/-- Witness for C9: a concrete MIXED build resolving to PSM at draw 0. -/
theorem C9_mixed_resolution_witness :
    ∃ ex, FIMExampleBuilder.build
      ⟨'a' :: 'b' :: [], some 1, some (0, 1), some FIMFormat.MIXED, none,
       some ('a' :: 'b' :: [])⟩ 0 = .ok ex ∧ ex.format = FIMFormat.PSM := by
  have hb : FIMExampleBuilder.build
      ⟨'a' :: 'b' :: [], some 1, some (0, 1), some FIMFormat.MIXED, none,
       some ('a' :: 'b' :: [])⟩ 0 =
      .ok (FIMExampleBuilder.buildPSMFormat
        ⟨'a' :: 'b' :: [], some 1, some (0, 1), some FIMFormat.MIXED, none,
         some ('a' :: 'b' :: [])⟩) := by
    unfold FIMExampleBuilder.build
    rw [show FIMExampleBuilder.validate
      ⟨'a' :: 'b' :: [], some 1, some (0, 1), some FIMFormat.MIXED, none,
       some ('a' :: 'b' :: [])⟩ = none from rfl]
    have e1 : (FIMFormat.MIXED = FIMFormat.ZED) = False := eq_false (by decide)
    have e2 : (FIMFormat.MIXED = FIMFormat.PSM) = False := eq_false (by decide)
    have e3 : (FIMFormat.MIXED = FIMFormat.SPM) = False := eq_false (by decide)
    have e5 : ((0 : ℚ) < 1/2) = True := eq_true (by norm_num)
    simp only [e1, e2, e3, e5, if_false, if_true]
  have h := (C9_mixed_resolution).2
    ⟨'a' :: 'b' :: [], some 1, some (0, 1), some FIMFormat.MIXED, none,
     some ('a' :: 'b' :: [])⟩ 0 _ rfl hb
  rw [if_pos (by norm_num : (0 : ℚ) < 1/2)] at h
  exact ⟨_, hb, h⟩

/-! ### Theorems for claim C2 (Editable Region Resolver invariant) -/

/-- jsSplit never returns an empty list of lines. -/
theorem jsSplit_ne_nil (sep : Char) (l : JStr) : jsSplit sep l ≠ [] := by
  induction l with
  | nil => simp [jsSplit]
  | cons c cs ih =>
    unfold jsSplit
    cases h : jsSplit sep cs with
    | nil => simp
    | cons x xs =>
      by_cases hc : c = sep <;> simp [hc]

/-- Each line consumes its length plus one for the newline; in total one more
than the length of the split text. -/
theorem jsSplit_sum (sep : Char) (l : JStr) :
    ((jsSplit sep l).map (fun x => x.length + 1)).sum = l.length + 1 := by
  induction l with
  | nil => simp [jsSplit]
  | cons c cs ih =>
    unfold jsSplit
    cases h : jsSplit sep cs with
    | nil => exact absurd h (jsSplit_ne_nil sep cs)
    | cons x xs =>
      rw [h] at ih
      by_cases hc : c = sep
      · simp only [hc, if_pos rfl, List.map, List.sum_cons] at ih ⊢
        simp at ih ⊢
        omega
      · simp only [if_neg hc, List.map, List.sum_cons] at ih ⊢
        simp at ih ⊢
        omega

/-- The character offset of any line plus that line's length stays within
the text. -/
theorem lineToPosition_add_le (t : JStr) (i : Nat)
    (h : i < (jsSplit '\n' t).length) :
    SRM.lineToPosition (jsSplit '\n' t) i + ((jsSplit '\n' t).getD i []).length
      ≤ t.length := by
  set L := jsSplit '\n' t with hLdef
  have hsum : (L.map (fun x => x.length + 1)).sum = t.length + 1 := jsSplit_sum '\n' t
  have hgetD : L.getD i [] = L[i] := List.getD_eq_getElem L [] h
  have hsplit : L = L.take i ++ L[i] :: L.drop (i + 1) := by
    conv_lhs => rw [← List.take_append_drop i L]
    rw [List.drop_eq_getElem_cons h]
  have hsum2 : (L.map (fun x => x.length + 1)).sum =
      ((L.take i).map (fun x => x.length + 1)).sum + (L[i].length + 1)
        + ((L.drop (i + 1)).map (fun x => x.length + 1)).sum := by
    conv_lhs => rw [hsplit]
    simp only [List.map_append, List.sum_append, List.map_cons, List.sum_cons]
    omega
  unfold SRM.lineToPosition
  rw [if_pos h, hgetD]
  omega

/-- findBlockBoundaries never places the block end past the end of the
text. -/
theorem findBlockBoundaries_endPos_le (t : JStr) (pos : Int) :
    (SRM.findBlockBoundaries t pos).endPos ≤ t.length := by
  have haux : ∀ k : Nat,
      SRM.lineToPosition (jsSplit '\n' t) (min ((jsSplit '\n' t).length - 1) k)
        + ((jsSplit '\n' t).getD (min ((jsSplit '\n' t).length - 1) k) []).length
        ≤ t.length := by
    intro k
    have hne : jsSplit '\n' t ≠ [] := jsSplit_ne_nil '\n' t
    have hlen : 1 ≤ (jsSplit '\n' t).length := List.length_pos.mpr hne
    exact lineToPosition_add_le t _ (by omega)
  unfold SRM.findBlockBoundaries
  cases hctx : SRM.getLineContext t pos with
  | none => simp
  | some ctx =>
    simp only
    exact haux _

/-- C2 (amended): for non-empty code and any cursor offset within [0, length]
the resolver returns s ≤ cursor ≤ e with 0 ≤ s ≤ e ≤ length(code)
(e may equal the length, one past the last index); empty code gives (0,0). -/
theorem C2_region_resolver_invariant :
    (∀ (code : JStr) (c : Int), code ≠ [] → 0 ≤ c → c ≤ (code.length : Int) →
      (FIMTransformer.determineEditableRegion code c).1 ≤ c.toNat ∧
      c.toNat ≤ (FIMTransformer.determineEditableRegion code c).2 ∧
      (FIMTransformer.determineEditableRegion code c).1
        ≤ (FIMTransformer.determineEditableRegion code c).2 ∧
      (FIMTransformer.determineEditableRegion code c).2 ≤ code.length) ∧
    (∀ c : Int, FIMTransformer.determineEditableRegion [] c = (0, 0)) := by
  constructor
  · intro code c hcode h0 hlen
    unfold FIMTransformer.determineEditableRegion
    rw [if_neg hcode]
    have hclamp : SRM.clampPosition code c = c.toNat := by
      unfold SRM.clampPosition
      omega
    rw [hclamp]
    have hb := findBlockBoundaries_endPos_le code ((c.toNat : Nat) : Int)
    refine ⟨?_, ?_, ?_, ?_⟩ <;> simp only [] <;> split_ifs <;> omega
  · intro c
    rfl

/-- Witness for C2 at concrete inputs. -/
theorem C2_region_resolver_invariant_witness :
    1 ≤ (FIMTransformer.determineEditableRegion ('a' :: 'b' :: []) 1).2 ∧
    (FIMTransformer.determineEditableRegion ('a' :: 'b' :: []) 1).2 ≤ 2 := by
  have h := (C2_region_resolver_invariant).1 ('a' :: 'b' :: []) 1
    (by decide) (by decide) (by decide)
  exact ⟨h.2.1, h.2.2.2⟩

/-- Counterexample for C2 as stated: on the two-character single-line code ab
the resolver returns end = 2 = length (never < length), and for the
out-of-range cursor offset 5 the returned end 2 does not satisfy
cursor ≤ end. -/
theorem C2_counterexample :
    ¬ ((FIMTransformer.determineEditableRegion ('a' :: 'b' :: []) 0).2
        < ('a' :: 'b' :: []).length) ∧
    ¬ ((5 : Nat) ≤ (FIMTransformer.determineEditableRegion ('a' :: 'b' :: []) 5).2) := by
  decide

/-! ### Theorems for claim C6 (Cursor Position Selector output) -/

theorem setInsert_nodup {A : Type} [DecidableEq A] {s : List A} (x : A)
    (hs : s.Nodup) : (setInsert s x).Nodup := by
  unfold setInsert
  split_ifs with h
  · exact hs
  · simp [List.nodup_append, hs, h]

theorem mem_setInsert {A : Type} [DecidableEq A] {s : List A} {x y : A}
    (hy : y ∈ setInsert s x) : y ∈ s ∨ y = x := by
  unfold setInsert at hy
  split_ifs at hy with h
  · exact Or.inl hy
  · rcases List.mem_append.mp hy with h1 | h1
    · exact Or.inl h1
    · exact Or.inr (List.mem_singleton.mp h1)

theorem setInsert_length_le {A : Type} [DecidableEq A] (s : List A) (x : A) :
    (setInsert s x).length ≤ s.length + 1 := by
  unfold setInsert
  split_ifs <;> simp

theorem foldl_setInsert_nodup {A : Type} [DecidableEq A] (xs : List A) :
    ∀ s : List A, s.Nodup → (xs.foldl setInsert s).Nodup := by
  induction xs with
  | nil => intro s hs; exact hs
  | cons x xs ih => intro s hs; exact ih _ (setInsert_nodup x hs)

theorem mem_foldl_setInsert {A : Type} [DecidableEq A] (xs : List A) :
    ∀ (s : List A) (y : A), y ∈ xs.foldl setInsert s → y ∈ s ∨ y ∈ xs := by
  induction xs with
  | nil => intro s y hy; exact Or.inl hy
  | cons x xs ih =>
    intro s y hy
    rcases ih _ y hy with h1 | h1
    · rcases mem_setInsert h1 with h2 | h2
      · exact Or.inl h2
      · exact Or.inr (by simp [h2])
    · exact Or.inr (List.mem_cons_of_mem x h1)

theorem firstDedup_nodup {A : Type} [DecidableEq A] (l : List A) :
    (firstDedup l).Nodup :=
  foldl_setInsert_nodup l [] List.nodup_nil

theorem mem_firstDedup {A : Type} [DecidableEq A] {l : List A} {y : A}
    (hy : y ∈ firstDedup l) : y ∈ l := by
  rcases mem_foldl_setInsert l [] y hy with h | h
  · cases h
  · exact h

theorem guardedFold_nodup {B : Type} (k : Nat) (g : B → Nat) (xs : List B) :
    ∀ s : List Nat, s.Nodup →
      (xs.foldl (fun s x => if s.length < k then setInsert s (g x) else s) s).Nodup := by
  induction xs with
  | nil => intro s hs; exact hs
  | cons x xs ih =>
    intro s hs
    by_cases h : s.length < k
    · simp only [List.foldl_cons, if_pos h]
      exact ih _ (setInsert_nodup (g x) hs)
    · simp only [List.foldl_cons, if_neg h]
      exact ih _ hs

theorem guardedFold_length {B : Type} (k : Nat) (g : B → Nat) (xs : List B) :
    ∀ s : List Nat, s.length ≤ k →
      (xs.foldl (fun s x => if s.length < k then setInsert s (g x) else s) s).length
        ≤ k := by
  induction xs with
  | nil => intro s hs; exact hs
  | cons x xs ih =>
    intro s hs
    by_cases h : s.length < k
    · simp only [List.foldl_cons, if_pos h]
      exact ih _ (le_trans (setInsert_length_le s (g x)) (by omega))
    · simp only [List.foldl_cons, if_neg h]
      exact ih _ hs

theorem guardedFold_mem {B : Type} (k : Nat) (g : B → Nat) (xs : List B) :
    ∀ (s : List Nat) (y : Nat),
      y ∈ xs.foldl (fun s x => if s.length < k then setInsert s (g x) else s) s →
      y ∈ s ∨ ∃ x ∈ xs, y = g x := by
  induction xs with
  | nil => intro s y hy; exact Or.inl hy
  | cons x xs ih =>
    intro s y hy
    by_cases h : s.length < k
    · simp only [List.foldl_cons, if_pos h] at hy
      rcases ih _ y hy with h1 | ⟨x', hx', h2⟩
      · rcases mem_setInsert h1 with h2 | h2
        · exact Or.inl h2
        · exact Or.inr ⟨x, by simp, h2⟩
      · exact Or.inr ⟨x', List.mem_cons_of_mem x hx', h2⟩
    · simp only [List.foldl_cons, if_neg h] at hy
      rcases ih _ y hy with h1 | ⟨x', hx', h2⟩
      · exact Or.inl h1
      · exact Or.inr ⟨x', List.mem_cons_of_mem x hx', h2⟩

theorem heurCandidates_nodup (code : JStr) : (ASTProcessor.heurCandidates code).Nodup :=
  (firstDedup_nodup _).filter _

theorem heurCandidates_lt (code : JStr) :
    ∀ p ∈ ASTProcessor.heurCandidates code, p < code.length := by
  intro p hp
  have := List.of_mem_filter hp
  simpa using this

/-- C6 (amended): selectCursorPositions returns a sorted-ascending sequence
of at most k offsets, each in [0, length) for non-empty code; empty code
yields exactly [0]; the result is duplicate-free whenever at least one
heuristic candidate exists (when none exists, the evenly-spaced fallback may
repeat the clamped offset length-1). -/
theorem C6_cursor_selector_output (code lang : JStr) (k : Nat)
    (shuffle : List Nat → List Nat) (rands : List Nat)
    (hk : 1 ≤ k)
    (hsh : ∀ l, List.Perm (shuffle l) l)
    (hr : ∀ x ∈ rands, x < code.length) :
    List.Sorted (· ≤ ·) (ASTProcessor.selectCursorPositions code lang k shuffle rands) ∧
    (ASTProcessor.selectCursorPositions code lang k shuffle rands).length ≤ k ∧
    (code ≠ [] → ∀ p ∈ ASTProcessor.selectCursorPositions code lang k shuffle rands,
      p < code.length) ∧
    (code = [] → ASTProcessor.selectCursorPositions code lang k shuffle rands = [0]) ∧
    (ASTProcessor.heurCandidates code ≠ [] →
      (ASTProcessor.selectCursorPositions code lang k shuffle rands).Nodup) := by
  unfold ASTProcessor.selectCursorPositions ASTProcessor.fallbackCursorSelection
  by_cases hcode : code = []
  · rw [if_pos hcode]
    refine ⟨List.sorted_singleton 0, by simpa using hk, ?_, fun _ => rfl, ?_⟩
    · intro h; exact absurd hcode h
    · intro _; exact List.nodup_singleton 0
  · rw [if_neg hcode]
    have hlen1 : 1 ≤ code.length := List.length_pos.mpr hcode
    simp only []
    set u0 := ASTProcessor.heurCandidates code with hu0def
    set step := max 1 (code.length / (k + 1)) with hstep
    by_cases hu0 : u0 = []
    · -- no heuristic candidate: the evenly spaced fallback of length k
      rw [if_pos hu0]
      set u1 := (List.range' 1 k).map (fun i => min (i * step) (code.length - 1))
        with hu1def
      have hlenu1 : u1.length = k := by
        simp [hu1def]
      have hmem1 : ∀ p ∈ u1, p < code.length := by
        intro p hp
        rw [hu1def] at hp
        rcases List.mem_map.mp hp with ⟨i, _, hpi⟩
        omega
      rw [if_neg (show ¬ u1.length < k by omega)]
      rw [if_neg (show ¬ k < u1.length by omega)]
      refine ⟨List.sorted_insertionSort _ _, ?_, ?_, fun h => absurd h hcode, ?_⟩
      · rw [(List.perm_insertionSort _ _).length_eq]
        omega
      · intro _ p hp
        exact hmem1 p ((List.perm_insertionSort _ _).mem_iff.mp hp)
      · intro hne
        exact absurd hu0 hne
    · -- at least one heuristic candidate: u0 is duplicate-free and in range
      rw [if_neg hu0]
      have hnd0 : u0.Nodup := heurCandidates_nodup code
      have hlt0 : ∀ p ∈ u0, p < code.length := heurCandidates_lt code
      by_cases hshort : u0.length < k
      · -- top-up path
        rw [if_pos hshort]
        set ae := (List.range' 1 k).foldl
          (fun s i => if s.length < k then setInsert s (min (i * step) (code.length - 1))
            else s) u0 with haedef
        set ar := (rands.take 100).foldl
          (fun s r => if s.length < k then setInsert s r else s) ae with hardef
        have hnd_ae : ae.Nodup := guardedFold_nodup k _ _ u0 hnd0
        have hnd_ar : ar.Nodup := guardedFold_nodup k _ _ ae hnd_ae
        have hlen_ae : ae.length ≤ k := guardedFold_length k _ _ u0 (by omega)
        have hlen_ar : ar.length ≤ k := guardedFold_length k _ _ ae hlen_ae
        have hmem_ar : ∀ p ∈ ar, p < code.length := by
          intro p hp
          rcases guardedFold_mem k _ _ ae p hp with h1 | ⟨x, hx, h2⟩
          · rcases guardedFold_mem k _ _ u0 p h1 with h3 | ⟨i, _, h4⟩
            · exact hlt0 p h3
            · omega
          · have hx' := hr x (List.mem_of_mem_take hx)
            omega
        rw [if_neg (show ¬ k < ar.length by omega)]
        refine ⟨List.sorted_insertionSort _ _, ?_, ?_, fun h => absurd h hcode, ?_⟩
        · rw [(List.perm_insertionSort _ _).length_eq]
          exact hlen_ar
        · intro _ p hp
          exact hmem_ar p ((List.perm_insertionSort _ _).mem_iff.mp hp)
        · intro _
          exact ((List.perm_insertionSort _ _).nodup_iff).mpr hnd_ar
      · -- enough candidates already
        rw [if_neg hshort]
        by_cases htk : k < u0.length
        · -- shuffle and keep k
          rw [if_pos htk]
          have hnd_sh : (shuffle u0).Nodup := ((hsh u0).nodup_iff).mpr hnd0
          have hnd_tk : ((shuffle u0).take k).Nodup :=
            hnd_sh.sublist (List.take_sublist k (shuffle u0))
          refine ⟨List.sorted_insertionSort _ _, ?_, ?_, fun h => absurd h hcode, ?_⟩
          · rw [(List.perm_insertionSort _ _).length_eq, List.length_take]
            omega
          · intro _ p hp
            have h1 := (List.perm_insertionSort _ _).mem_iff.mp hp
            have h2 := List.mem_of_mem_take h1
            exact hlt0 p ((hsh u0).mem_iff.mp h2)
          · intro _
            exact ((List.perm_insertionSort _ _).nodup_iff).mpr hnd_tk
        · rw [if_neg htk]
          refine ⟨List.sorted_insertionSort _ _, ?_, ?_, fun h => absurd h hcode, ?_⟩
          · rw [(List.perm_insertionSort _ _).length_eq]
            omega
          · intro _ p hp
            exact hlt0 p ((List.perm_insertionSort _ _).mem_iff.mp hp)
          · intro _
            exact ((List.perm_insertionSort _ _).nodup_iff).mpr hnd0

/-- Witness for C6 at concrete inputs. -/
theorem C6_cursor_selector_output_witness :
    (ASTProcessor.selectCursorPositions ('a' :: 'b' :: []) [] 1 id []).length ≤ 1 :=
  (C6_cursor_selector_output ('a' :: 'b' :: []) [] 1 id []
    (le_refl 1) (fun l => List.Perm.refl l) (fun x hx => absurd hx (List.not_mem_nil x))).2.1

/-- Counterexample for C6 as stated: a comment-only line yields no heuristic
candidates, and the evenly spaced fallback then returns [1, 2, 2] for k = 3 —
sorted and in range but not duplicate-free. -/
theorem C6_counterexample :
    ASTProcessor.selectCursorPositions ('/' :: '/' :: 'a' :: []) [] 3 id [] = [1, 2, 2] ∧
    ¬ (ASTProcessor.selectCursorPositions ('/' :: '/' :: 'a' :: []) [] 3 id []).Nodup := by
  constructor
  · rfl
  · intro h
    rw [show ASTProcessor.selectCursorPositions ('/' :: '/' :: 'a' :: []) [] 3 id []
        = [1, 2, 2] from rfl] at h
    simp at h

/-! ### Theorems for claim C5 (wrong_variable mutation) -/

/-- C5 (amended): _useWrongVariable is a no-op when fewer than two distinct
identifiers exist (in particular on the single-identifier code x = 1, for
every behavior of the random draws); with at least two, it replaces only the
FIRST whole-word occurrence of the chosen identifier — not all of them — as
the concrete run on a b a with draws 0,1 shows (a b a becomes b b a). -/
theorem C5_wrong_variable_first_occurrence :
    (∀ draws, NegGen.useWrongVariable
        ('x' :: ' ' :: '=' :: ' ' :: '1' :: []) NegGen.langPy draws =
      some ('x' :: ' ' :: '=' :: ' ' :: '1' :: [])) ∧
    (∀ (code language : JStr) (draws : List Nat),
      (NegGen.identVars code language).length ≤ 1 →
      NegGen.useWrongVariable code language draws = some code) ∧
    (NegGen.useWrongVariable ('a' :: ' ' :: 'b' :: ' ' :: 'a' :: [])
        NegGen.langPy [0, 1] =
      some ('b' :: ' ' :: 'b' :: ' ' :: 'a' :: [])) := by
  refine ⟨?_, ?_, ?_⟩
  · intro draws
    unfold NegGen.useWrongVariable
    rw [show NegGen.identVars ('x' :: ' ' :: '=' :: ' ' :: '1' :: []) NegGen.langPy
        = [['x']] from rfl]
    rfl
  · intro code language draws h
    unfold NegGen.useWrongVariable
    rw [if_neg (show ¬ 1 < (NegGen.identVars code language).length by omega)]
  · rfl

/-- Witness for C5: the no-op branch at a concrete single-identifier code. -/
theorem C5_wrong_variable_first_occurrence_witness :
    NegGen.useWrongVariable ('1' :: ' ' :: '+' :: ' ' :: '2' :: [])
      NegGen.langPy [] = some ('1' :: ' ' :: '+' :: ' ' :: '2' :: []) :=
  (C5_wrong_variable_first_occurrence).2.1
    ('1' :: ' ' :: '+' :: ' ' :: '2' :: []) NegGen.langPy [] (by decide)

/-- Counterexample for C5 as stated: on a b a with draws choosing var1 = a
and var2 = b, the code replaces only the first whole-word occurrence
(result b b a), while replacing all occurrences as the spec states would
give b b b. -/
theorem C5_counterexample :
    NegGen.useWrongVariable ('a' :: ' ' :: 'b' :: ' ' :: 'a' :: [])
        NegGen.langPy [0, 1] =
      some ('b' :: ' ' :: 'b' :: ' ' :: 'a' :: []) ∧
    specReplaceAllWordOcc ('a' :: ' ' :: 'b' :: ' ' :: 'a' :: [])
        ('a' :: []) ('b' :: []) = 'b' :: ' ' :: 'b' :: ' ' :: 'b' :: [] ∧
    ('b' :: ' ' :: 'b' :: ' ' :: 'a' :: [] : JStr)
      ≠ ('b' :: ' ' :: 'b' :: ' ' :: 'b' :: []) := by
  exact ⟨rfl, rfl, by decide⟩

/-! ### Helper lemmas for the degradation engine on concrete completions -/

theorem jsSubstring_zero (s : JStr) (b : Int) :
    jsSubstring s 0 b = s.take ((max 0 (min b (s.length : Int))).toNat) := by
  have h : jsSubstring s 0 b =
      (s.take ((max (max 0 (min (0 : Int) (s.length : Int)))
          (max 0 (min b (s.length : Int)))).toNat)).drop
        ((min (max 0 (min (0 : Int) (s.length : Int)))
          (max 0 (min b (s.length : Int)))).toNat) := rfl
  rw [h]
  have hlo : (min (max 0 (min (0 : Int) (s.length : Int)))
      (max 0 (min b (s.length : Int)))).toNat = 0 := by omega
  have hhi : (max (max 0 (min (0 : Int) (s.length : Int)))
      (max 0 (min b (s.length : Int)))).toNat
      = (max 0 (min b (s.length : Int))).toNat := by omega
  rw [hlo, hhi, List.drop_zero]

/-- _introduceSubtleBugs never changes the three-character completion abc
(none of the JavaScript patterns occurs in it), whatever the draw. -/
theorem introduceSubtleBugs_abc (pick : Nat) :
    NegGen.introduceSubtleBugs ('a' :: 'b' :: 'c' :: []) NegGen.langJs pick
      = 'a' :: 'b' :: 'c' :: [] := by
  simp only [NegGen.introduceSubtleBugs]
  have h5 : pick % (NegGen.subtleBugTable NegGen.langJs).length < 5 := by
    rw [show (NegGen.subtleBugTable NegGen.langJs).length = 5 from rfl]
    exact Nat.mod_lt _ (by omega)
  generalize hieq : pick % (NegGen.subtleBugTable NegGen.langJs).length = i at h5 ⊢
  interval_cases i <;> decide

/-- _introduceTypeErrors never changes abc, whatever the draw. -/
theorem introduceTypeErrors_abc (pick : Nat) :
    NegGen.introduceTypeErrors ('a' :: 'b' :: 'c' :: []) NegGen.langJs pick
      = 'a' :: 'b' :: 'c' :: [] := by
  simp only [NegGen.introduceTypeErrors]
  have h4 : pick % (NegGen.typeErrTable NegGen.langJs).length < 4 := by
    rw [show (NegGen.typeErrTable NegGen.langJs).length = 4 from rfl]
    exact Nat.mod_lt _ (by omega)
  generalize hieq : pick % (NegGen.typeErrTable NegGen.langJs).length = i at h4 ⊢
  interval_cases i <;> decide

/-- _makeIncomplete on abc produces the empty string or abc itself,
whatever the draw: the cut point either lands inside (then the backup to the
previous newline, absent, empties the string) or past the end. -/
theorem lastIdxOfChar_abc_take (m : Nat) (hm : m ≤ 3) :
    lastIdxOfChar (('a' :: 'b' :: 'c' :: []).take m) '\n' = -1 := by
  interval_cases m <;> decide

theorem makeIncomplete_abc (q : ℚ) :
    NegGen.makeIncomplete ('a' :: 'b' :: 'c' :: []) q = [] ∨
    NegGen.makeIncomplete ('a' :: 'b' :: 'c' :: []) q = 'a' :: 'b' :: 'c' :: [] := by
  simp only [NegGen.makeIncomplete]
  rw [if_neg (by decide : ¬ ('a' :: 'b' :: 'c' :: [] : JStr) = [])]
  rw [jsSubstring_zero]
  set cut : Int := Int.floor ((60 + q * 20) * ((('a' :: 'b' :: 'c' :: [] : JStr)).length : ℚ) / 100)
    with hcut
  set n : Nat := (max 0 (min cut ((('a' :: 'b' :: 'c' :: [] : JStr)).length : Int))).toNat
    with hn
  have hlen3 : (('a' :: 'b' :: 'c' :: [] : JStr)).length = 3 := rfl
  have hn3 : n ≤ 3 := by
    rw [hn, hlen3]
    omega
  rw [lastIdxOfChar_abc_take n hn3]
  by_cases hc : cut - 20 < -1
  · rw [if_pos hc]
    left
    rw [jsSubstring_zero]
    have h0 : (max 0 (min (-1 : Int)
        (((('a' :: 'b' :: 'c' :: [] : JStr)).take n).length : Int))).toNat = 0 := by
      omega
    rw [h0]
    rfl
  · rw [if_neg hc]
    right
    have hne3 : n = 3 := by
      rw [hn, hlen3]
      omega
    rw [hne3]
    rfl

/-- _useWrongVariable is a no-op on abc (a single identifier), whatever the
draws. -/
theorem useWrongVariable_abc (draws : List Nat) :
    NegGen.useWrongVariable ('a' :: 'b' :: 'c' :: []) NegGen.langJs draws
      = some ('a' :: 'b' :: 'c' :: []) := by
  unfold NegGen.useWrongVariable
  rw [show NegGen.identVars ('a' :: 'b' :: 'c' :: []) NegGen.langJs
      = [['a', 'b', 'c']] from rfl]
  rfl

/-- _introduceOffByOne is a no-op on abc. -/
theorem introduceOffByOne_abc :
    NegGen.introduceOffByOne ('a' :: 'b' :: 'c' :: []) = 'a' :: 'b' :: 'c' :: [] := rfl

/-! ### Theorems for claims C4 and C10 (degradation engine output) -/

/-- The method loop fails on the completion abc for every random draw: no
strategy can change it usefully. -/
theorem tryMethods_abc (r : NegGen.DegRand) :
    NegGen.tryMethods ('a' :: 'b' :: 'c' :: []) NegGen.langJs r NegGen.methodNames
      = some none := by
  have hA : NegGen.applyDegradation ('a' :: 'b' :: 'c' :: []) NegGen.mSubtle
      NegGen.langJs r = some ('a' :: 'b' :: 'c' :: []) := by
    simp only [NegGen.applyDegradation]
    rw [if_neg (show ¬ (('a' :: 'b' :: 'c' :: [] : JStr) = []) by decide)]
    rw [if_pos trivial, introduceSubtleBugs_abc]
  have hB : NegGen.applyDegradation ('a' :: 'b' :: 'c' :: []) NegGen.mIncomplete
      NegGen.langJs r = some (NegGen.makeIncomplete ('a' :: 'b' :: 'c' :: []) r.incDraw) := by
    simp only [NegGen.applyDegradation]
    rw [if_neg (show ¬ (('a' :: 'b' :: 'c' :: [] : JStr) = []) by decide)]
    rw [if_neg (show ¬ (NegGen.mIncomplete = NegGen.mSubtle) by decide)]
    rw [if_pos trivial]
  have hC : NegGen.applyDegradation ('a' :: 'b' :: 'c' :: []) NegGen.mWrongVar
      NegGen.langJs r = some ('a' :: 'b' :: 'c' :: []) := by
    simp only [NegGen.applyDegradation]
    rw [if_neg (show ¬ (('a' :: 'b' :: 'c' :: [] : JStr) = []) by decide)]
    rw [if_neg (show ¬ (NegGen.mWrongVar = NegGen.mSubtle) by decide)]
    rw [if_neg (show ¬ (NegGen.mWrongVar = NegGen.mIncomplete) by decide)]
    rw [if_pos trivial, useWrongVariable_abc]
  have hD : NegGen.applyDegradation ('a' :: 'b' :: 'c' :: []) NegGen.mOffByOne
      NegGen.langJs r = some ('a' :: 'b' :: 'c' :: []) := by
    simp only [NegGen.applyDegradation]
    rw [if_neg (show ¬ (('a' :: 'b' :: 'c' :: [] : JStr) = []) by decide)]
    rw [if_neg (show ¬ (NegGen.mOffByOne = NegGen.mSubtle) by decide)]
    rw [if_neg (show ¬ (NegGen.mOffByOne = NegGen.mIncomplete) by decide)]
    rw [if_neg (show ¬ (NegGen.mOffByOne = NegGen.mWrongVar) by decide)]
    rw [if_pos trivial, introduceOffByOne_abc]
  have hE : NegGen.applyDegradation ('a' :: 'b' :: 'c' :: []) NegGen.mTypeErr
      NegGen.langJs r = some ('a' :: 'b' :: 'c' :: []) := by
    simp only [NegGen.applyDegradation]
    rw [if_neg (show ¬ (('a' :: 'b' :: 'c' :: [] : JStr) = []) by decide)]
    rw [if_neg (show ¬ (NegGen.mTypeErr = NegGen.mSubtle) by decide)]
    rw [if_neg (show ¬ (NegGen.mTypeErr = NegGen.mIncomplete) by decide)]
    rw [if_neg (show ¬ (NegGen.mTypeErr = NegGen.mWrongVar) by decide)]
    rw [if_neg (show ¬ (NegGen.mTypeErr = NegGen.mOffByOne) by decide)]
    rw [if_pos trivial, introduceTypeErrors_abc]
  rw [show NegGen.methodNames = NegGen.mSubtle :: NegGen.mIncomplete ::
      NegGen.mWrongVar :: NegGen.mOffByOne :: NegGen.mTypeErr :: [] from rfl]
  rcases makeIncomplete_abc r.incDraw with hM | hM <;>
    simp [NegGen.tryMethods, hA, hB, hC, hD, hE, hM]

/-- C4: evaluated at the failing input (a positive example with an empty
completion), generateNegativeExamples emits one record whose completion is
the JS null sentinel, label false, and whose degradationMethod is null —
rather than emitting nothing as the spec requires. The guard meant to skip
such inputs compares against undefined while the variable is initialized to
null. -/
theorem C4_empty_completion_emits_null_record (p : JStr) (lopt : Option JStr)
    (r : NegGen.DegRand) :
    NegGen.generateNegativeExamples [(⟨p, [], lopt⟩, r)] =
      some [⟨p, none, false, ⟨lopt, none⟩⟩] := by
  have htm : ∀ lang, NegGen.tryMethods [] lang r NegGen.methodNames = some none := by
    intro lang
    simp [NegGen.methodNames, NegGen.tryMethods, NegGen.applyDegradation]
  simp only [NegGen.generateNegativeExamples, NegGen.generateNegativeForExample]
  rw [htm]
  simp

/-- C10: for every behavior of the random source, the single positive
example with completion abc and language javascript yields exactly one
negative whose completion is the literal string undefined and whose
degradationMethod is corruption — a tag that is not one of the five weighted
strategy names. -/
theorem C10_forced_fallback_corruption (p : JStr) (r : NegGen.DegRand) :
    NegGen.generateNegativeExamples
        [(⟨p, 'a' :: 'b' :: 'c' :: [], some (String.toList "javascript")⟩, r)] =
      some [⟨p, some (String.toList "undefined"), false,
            ⟨some (String.toList "javascript"), some (String.toList "corruption")⟩⟩] ∧
    (String.toList "corruption") ∉ NegGen.methodNames := by
  constructor
  · simp only [NegGen.generateNegativeExamples, NegGen.generateNegativeForExample]
    rw [show (if String.toList "javascript" = ([] : JStr) then NegGen.langJs
        else String.toList "javascript") = NegGen.langJs from rfl]
    rw [tryMethods_abc r]
    have hjt : (jsTrim ('a' :: 'b' :: 'c' :: []) = ([] : JStr)) = False :=
      eq_false (by decide)
    simp [hjt]
  · decide

end Fimgen
